import Mathlib

/-!
Verification development for the wikibase-bulk-kit mapping engine.

This file gives a shallow embedding, in Lean 4, of the parts of the
repository that the checked claims are about:

* the `UpdateAction` configuration enum (`src/wbk/mapping/models.py`),
  the strategy factory (`src/wbk/mapping/pipeline/update_strategies.py`,
  `UpdateStrategyFactory.STRATEGY_MAP`) and the update dispatcher
  (`src/wbk/mapping/processor.py`, `MappingProcessor.bulk_update_items`);
* the per-entity working-copy memoization shared by all update strategies
  (`UpdateStrategy._get_or_init_item`) and the per-row strategy loop;
* the Keep strategy (`KeepStrategy.run`);
* claim construction (`src/wbk/mapping/pipeline/claim_builder.py`) and
  property resolution (`src/wbk/mapping/pipeline/context.py`);
* value resolution (`src/wbk/mapping/pipeline/value_resolution.py`);
* unique-value normalization for quantity datatypes
  (`MappingContext._normalize_unique_value`,
  `ItemBulkSearcher._normalize_unique_value`);
* the bulk label searches (`src/wbk/processor/bulk_item_search.py` and
  `src/wbk/backend/raisewikibase.py`).

Python dicts are embedded as association lists with Python assignment
semantics (replace in place if the key exists, append otherwise); Python
`None` becomes `Option`; Python exceptions become `Except` values.  Machine
floats appearing in quantity normalization are embedded by exact decimal
arithmetic (parse to a canonical sign/mantissa/exponent triple, print the
shortest decimal form), which agrees with CPython semantics on all inputs
exercised here.
-/

namespace WBK

/-! ## Association lists with Python dict semantics -/

/-- Lookup of a key in an association list (first match), like Python
`d.get(k)`. -/
def alookup {α : Type} : List (String × α) → String → Option α
  | [], _ => none
  | (k, v) :: rest, key => if k = key then some v else alookup rest key

/-- Python dict assignment `d[k] = v`: replace the value in place if the key
exists (keeping its position), otherwise append the new binding. -/
def aset {α : Type} : List (String × α) → String → α → List (String × α)
  | [], key, v => [(key, v)]
  | (k, w) :: rest, key, v =>
      if k = key then (k, v) :: rest else (k, w) :: aset rest key v

@[simp] theorem alookup_nil {α : Type} (k : String) :
    alookup ([] : List (String × α)) k = none := rfl

@[simp] theorem alookup_cons {α : Type} (k key : String) (v : α) (rest) :
    alookup ((k, v) :: rest) key = if k = key then some v else alookup rest key := rfl

@[simp] theorem aset_nil {α : Type} (k : String) (v : α) :
    aset ([] : List (String × α)) k v = [(k, v)] := rfl

theorem alookup_aset_self {α : Type} (m : List (String × α)) (k : String) (v : α) :
    alookup (aset m k v) k = some v := by
  induction m with
  | nil => simp [aset]
  | cons hd tl ih =>
      obtain ⟨k0, v0⟩ := hd
      by_cases h : k0 = k <;> simp [aset, alookup, h, ih]

theorem alookup_aset_ne {α : Type} (m : List (String × α)) (k k' : String) (v : α)
    (h : k ≠ k') : alookup (aset m k v) k' = alookup m k' := by
  induction m with
  | nil => simp [aset, alookup, h]
  | cons hd tl ih =>
      obtain ⟨k0, v0⟩ := hd
      by_cases h0 : k0 = k
      · subst h0
        simp [aset, alookup, h]
      · simp [aset, alookup, h0, ih]

/-! ## C1: update actions, strategy factory, update dispatcher

`UpdateAction` in `src/wbk/mapping/models.py` (lines 7-12) is a string
enum; its members are embedded as the list of their configuration values.
-/

/-- Values of the `UpdateAction` enum exactly as defined in
`src/wbk/mapping/models.py`: `APPEND_OR_REPLACE`, `FORCE_APPEND`, `KEEP`,
`REPLACE_ALL`, `MERGE_REFS_OR_APPEND`.  There is no
`MERGE_QUALIFIERS_OR_APPEND` member. -/
def updateActionValues : List String :=
  ["append_or_replace", "force_append", "keep", "replace_all", "merge_refs_or_append"]

/-- The six enum member names that `UpdateStrategyFactory.STRATEGY_MAP`
(`update_strategies.py` lines 826-831) uses as keys, in source order.  The
sixth key is written `UpdateAction.MERGE_QUALIFIERS_OR_APPEND` in the
source even though the enum has no such member. -/
def strategyFactoryActionNames : List String :=
  ["replace_all", "append_or_replace", "force_append", "keep",
   "merge_refs_or_append", "merge_qualifiers_or_append"]

/-- Strategy class chosen by `UpdateStrategyFactory.STRATEGY_MAP` for each
action name (embedded by class name). -/
def strategyFactoryMap : List (String × String) :=
  [("replace_all", "ReplaceAllStrategy"),
   ("append_or_replace", "AppendOrReplaceStrategy"),
   ("force_append", "ForceAppendStrategy"),
   ("keep", "KeepStrategy"),
   ("merge_refs_or_append", "MergeRefsOrAppendStrategy"),
   ("merge_qualifiers_or_append", "MergeQualifiersStrategy")]

/-- The dispatcher `MappingProcessor.bulk_update_items`
(`src/wbk/mapping/processor.py` lines 546-560): maps a configured action
value to the handler method it calls; any other value raises `ValueError`
(embedded as `none`). -/
def bulkUpdateItemsDispatch (action : String) : Option String :=
  if action = "replace_all" then some "bulk_replace_items"
  else if action = "append_or_replace" then some "bulk_append_or_replace_items"
  else if action = "force_append" then some "bulk_force_append_items"
  else if action = "keep" then some "bulk_keep_items"
  else if action = "merge_refs_or_append" then some "bulk_merge_refs_or_append_items"
  else none

/-- C1: the claim states that each of the six named update actions has a
configurable `UpdateAction` value which the factory and the dispatcher map
to its strategy.  The code falsifies this for Merge-Qualifiers-or-Append:
the factory keys include `merge_qualifiers_or_append` (the `STRATEGY_MAP`
entry referencing `UpdateAction.MERGE_QUALIFIERS_OR_APPEND`), but the
`UpdateAction` enum defines no such value, and the dispatcher handles only
the five enum values.  This theorem evaluates the embedded code at the
failing action name. -/
theorem updateAction_merge_qualifiers_missing :
    "merge_qualifiers_or_append" ∈ strategyFactoryActionNames ∧
    "merge_qualifiers_or_append" ∉ updateActionValues ∧
    bulkUpdateItemsDispatch "merge_qualifiers_or_append" = none ∧
    (∀ a ∈ updateActionValues, (bulkUpdateItemsDispatch a).isSome) := by
  refine ⟨by decide, by decide, by decide, ?_⟩
  intro a ha
  fin_cases ha <;> decide

/-- Witness for the dispatch half of the C1 theorem at the concrete action
`replace_all`. -/
theorem updateAction_merge_qualifiers_missing_witness :
    "replace_all" ∈ updateActionValues ∧
    (bulkUpdateItemsDispatch "replace_all").isSome :=
  ⟨by decide,
    updateAction_merge_qualifiers_missing.2.2.2 "replace_all" (by decide)⟩

/-! ## C8: unique-value normalization for quantity datatypes

`MappingContext._normalize_unique_value` (`context.py` lines 214-245) and
`ItemBulkSearcher._normalize_unique_value` (`bulk_item_search.py` lines
28-62) are the same algorithm: for a quantity datatype, strip one leading
`+`, parse the string as a Python float, and print integral values as
`str(int(x))` and other values as `str(x)`; on a parse failure fall back to
the (plus-stripped) string itself; finally `strip()` whitespace and map the
empty string to `None`.  The float parse/print round trip is embedded by
exact decimal arithmetic: a parsed number is kept as a canonical
sign/mantissa/exponent triple (mantissa not divisible by ten), and printing
produces the shortest decimal form, matching CPython repr round-tripping on
the decimal strings this code normalizes. -/

/-- Whitespace test used by the embedded `str.strip()`. -/
def isSpc (c : Char) : Bool :=
  c = ' ' ∨ c = '\t' ∨ c = '\n' ∨ c = '\r'

/-- Left-strip of whitespace. -/
def lstrip (l : List Char) : List Char := l.dropWhile isSpc

/-- Python `str.strip()` on a character list. -/
def pyStripL (l : List Char) : List Char :=
  ((lstrip l).reverse.dropWhile isSpc).reverse

/-- Digit character for a value below ten. -/
def digitChar (d : Nat) : Char :=
  if d = 0 then '0' else if d = 1 then '1' else if d = 2 then '2'
  else if d = 3 then '3' else if d = 4 then '4' else if d = 5 then '5'
  else if d = 6 then '6' else if d = 7 then '7' else if d = 8 then '8'
  else '9'

/-- Numeric value of a digit character. -/
def digitVal (c : Char) : Nat := c.toNat - '0'.toNat

/-- Digit accumulation of `natToDigits`, fuel-structured so that the kernel
can evaluate it. -/
def natToDigitsF : Nat → Nat → List Char → List Char
  | 0, _, acc => acc
  | fuel + 1, n, acc =>
      if n = 0 then acc else natToDigitsF fuel (n / 10) (digitChar (n % 10) :: acc)

/-- Decimal digit string of a natural number (Python `str(int)` without
sign). -/
def natToDigits (n : Nat) : List Char :=
  if n = 0 then ['0'] else natToDigitsF n n []

/-- Value of a digit string read most-significant first, with accumulator. -/
def digitsValFrom (a : Nat) (l : List Char) : Nat :=
  l.foldl (fun acc c => acc * 10 + digitVal c) a

/-- Value of a digit string read most-significant first. -/
def digitsVal (l : List Char) : Nat := digitsValFrom 0 l

/-- Exact decimal number: value is `(-1)^neg * mant * 10^exp`. -/
structure Dec where
  neg : Bool
  mant : Nat
  exp : Int
  deriving DecidableEq, Repr

/-- Canonical form: zero is `+0e0`, and a nonzero mantissa carries no
trailing decimal zeros (they live in the exponent instead). -/
def Canon (d : Dec) : Prop :=
  (d.mant = 0 → d.neg = false ∧ d.exp = 0) ∧ (d.mant ≠ 0 → d.mant % 10 ≠ 0)

/-- Move trailing decimal zeros of the mantissa into the exponent
(fuel-structured; `fuel ≥ m` suffices). -/
def stripTensF : Nat → Nat → Int → Nat × Int
  | 0, m, e => (m, e)
  | fuel + 1, m, e =>
      if m ≠ 0 ∧ m % 10 = 0 then stripTensF fuel (m / 10) (e + 1) else (m, e)

/-- Canonicalize a mantissa/exponent pair. -/
def stripTens (m : Nat) (e : Int) : Nat × Int := stripTensF m m e

/-- Build a canonical `Dec` from sign, mantissa and exponent. -/
def mkDec (neg : Bool) (m : Nat) (e : Int) : Dec :=
  if m = 0 then ⟨false, 0, 0⟩ else ⟨neg, (stripTens m e).1, (stripTens m e).2⟩

/-- Sign handling of the float parser: one optional leading `+` or `-`. -/
def parseSign : List Char → Bool × List Char
  | [] => (false, [])
  | c :: r =>
      if c = '+' then (false, r)
      else if c = '-' then (true, r)
      else (false, c :: r)

/-- Digits-and-point stage of the decimal parser, after the sign: digits,
optional point and digits; at least one digit overall and nothing else. -/
def parseDigits (neg : Bool) (l : List Char) : Option Dec :=
  if l.dropWhile Char.isDigit = [] then
    if l.takeWhile Char.isDigit = [] then none
    else some (mkDec neg (digitsVal (l.takeWhile Char.isDigit)) 0)
  else if (l.dropWhile Char.isDigit).head? = some '.' then
    if ((l.dropWhile Char.isDigit).tail).dropWhile Char.isDigit = [] ∧
        ¬(l.takeWhile Char.isDigit = [] ∧
          ((l.dropWhile Char.isDigit).tail).takeWhile Char.isDigit = []) then
      some (mkDec neg
        (digitsVal (l.takeWhile Char.isDigit ++
          ((l.dropWhile Char.isDigit).tail).takeWhile Char.isDigit))
        (-((((l.dropWhile Char.isDigit).tail).takeWhile Char.isDigit).length : Int)))
    else none
  else none

/-- Core decimal parser: optional sign, digits, optional point and digits;
at least one digit overall and nothing else.  This is the fragment of
Python `float()` exercised by quantity normalization (scientific notation
and the `inf`/`nan` spellings fall to the non-numeric fallback). -/
def parseCore (l : List Char) : Option Dec :=
  parseDigits (parseSign l).1 (parseSign l).2

/-- Python `float(str)`: surrounding whitespace is ignored. -/
def pyParseL (l : List Char) : Option Dec := parseCore (pyStripL l)

/-- Print a canonical decimal: integral values as `str(int(x))`, others in
plain decimal-point form. -/
def printDecL (d : Dec) : List Char :=
  if 0 ≤ d.exp then
    (if d.neg then ['-'] else []) ++ natToDigits (d.mant * 10 ^ d.exp.toNat)
  else if (-d.exp).toNat < (natToDigits d.mant).length then
    (if d.neg then ['-'] else []) ++
      ((natToDigits d.mant).take ((natToDigits d.mant).length - (-d.exp).toNat) ++
        '.' :: (natToDigits d.mant).drop ((natToDigits d.mant).length - (-d.exp).toNat))
  else
    (if d.neg then ['-'] else []) ++
      ('0' :: '.' ::
        (List.replicate ((-d.exp).toNat - (natToDigits d.mant).length) '0' ++
          natToDigits d.mant))

/-- Drop one leading `+` (`normalized[1:]` guarded by `startswith("+")`). -/
def stripPlusL : List Char → List Char
  | [] => []
  | c :: r => if c = '+' then r else c :: r

/-- Quantity branch of `_normalize_unique_value` on a string value: strip
one leading `+`, try the numeric parse (printing the result on success),
fall back to the stripped string otherwise; the result is `strip()`-ed and
empty results become `None`. -/
def normQL (l : List Char) : Option (List Char) :=
  (pyParseL (stripPlusL l)).elim
    (if pyStripL (stripPlusL l) = [] then none else some (pyStripL (stripPlusL l)))
    (fun d => some (printDecL d))

/-- The shared `_normalize_unique_value` of `MappingContext` and
`ItemBulkSearcher`, embedded on optional string values: `None` passes
through, a quantity datatype takes the numeric normalization, any other
datatype takes `str(value).strip() or None`. -/
def normalizeUniqueValue (v : Option String) (datatype : Option String) : Option String :=
  v.elim none (fun s =>
    if datatype = some "quantity" then (normQL s.data).map (fun l => ⟨l⟩)
    else if pyStripL s.data = [] then none else some ⟨pyStripL s.data⟩)

theorem normalizeUniqueValue_some_quantity (s : String) :
    normalizeUniqueValue (some s) (some "quantity") =
      (normQL s.data).map (fun l => ⟨l⟩) := by
  show (if (some "quantity" : Option String) = some "quantity" then
      (normQL s.data).map (fun l => (⟨l⟩ : String))
    else if pyStripL s.data = [] then none else some ⟨pyStripL s.data⟩) =
    (normQL s.data).map (fun l => ⟨l⟩)
  rw [if_pos rfl]

/-! Helper lemmas about `dropWhile`/`takeWhile`, stripping and digits. -/

theorem dropWhile_head_false {p : Char → Bool} {l : List Char} {c : Char}
    (h : (l.dropWhile p).head? = some c) : p c = false := by
  induction l with
  | nil => simp at h
  | cons a t ih =>
      rw [List.dropWhile_cons] at h
      by_cases hp : p a
      · exact ih (by simpa [hp] using h)
      · rw [if_neg hp] at h
        simp at h
        subst h
        simpa using hp

theorem dropWhile_eq_self_of_head {p : Char → Bool} {l : List Char}
    (h : ∀ c, l.head? = some c → p c = false) : l.dropWhile p = l := by
  cases l with
  | nil => rfl
  | cons a t =>
      rw [List.dropWhile_cons, if_neg]
      rw [h a rfl]
      simp

theorem dropWhile_eq_self_of_all {p : Char → Bool} {l : List Char}
    (h : ∀ c ∈ l, p c = false) : l.dropWhile p = l := by
  cases l with
  | nil => rfl
  | cons a t => exact dropWhile_eq_self_of_head (by intro c hc; simp at hc; exact hc ▸ h a (by simp))

theorem dropWhile_getLast {p : Char → Bool} {l : List Char}
    (h : l.dropWhile p ≠ []) : (l.dropWhile p).getLast? = l.getLast? := by
  induction l with
  | nil => simp at h
  | cons a t ih =>
      rw [List.dropWhile_cons]
      rw [List.dropWhile_cons] at h
      by_cases hp : p a
      · rw [if_pos hp]
        rw [if_pos hp] at h
        rw [ih h]
        cases t with
        | nil => simp [List.dropWhile] at h
        | cons b t2 => simp [List.getLast?_cons_cons]
      · rw [if_neg hp]

theorem takeWhile_eq_self_of_all {p : Char → Bool} {l : List Char}
    (h : ∀ c ∈ l, p c = true) : l.takeWhile p = l := by
  induction l with
  | nil => rfl
  | cons a t ih =>
      rw [List.takeWhile_cons, if_pos (h a (by simp))]
      rw [ih (fun c hc => h c (by simp [hc]))]

theorem dropWhile_eq_nil_of_all {p : Char → Bool} {l : List Char}
    (h : ∀ c ∈ l, p c = true) : l.dropWhile p = [] := by
  induction l with
  | nil => rfl
  | cons a t ih =>
      rw [List.dropWhile_cons, if_pos (h a (by simp))]
      exact ih (fun c hc => h c (by simp [hc]))

theorem takeWhile_append_stop {p : Char → Bool} {xs ys : List Char} {z : Char}
    (hxs : ∀ c ∈ xs, p c = true) (hz : p z = false) :
    (xs ++ z :: ys).takeWhile p = xs := by
  induction xs with
  | nil => simp [List.takeWhile_cons, hz]
  | cons a t ih =>
      rw [List.cons_append, List.takeWhile_cons, if_pos (hxs a (by simp))]
      rw [ih (fun c hc => hxs c (by simp [hc]))]

theorem dropWhile_append_stop {p : Char → Bool} {xs ys : List Char} {z : Char}
    (hxs : ∀ c ∈ xs, p c = true) (hz : p z = false) :
    (xs ++ z :: ys).dropWhile p = z :: ys := by
  induction xs with
  | nil => simp [List.dropWhile_cons, hz]
  | cons a t ih =>
      rw [List.cons_append, List.dropWhile_cons, if_pos (hxs a (by simp))]
      exact ih (fun c hc => hxs c (by simp [hc]))

theorem pyStripL_head_false {l : List Char} {c : Char}
    (h : (pyStripL l).head? = some c) : isSpc c = false := by
  unfold pyStripL at h
  rw [List.head?_reverse] at h
  have hne : (lstrip l).reverse.dropWhile isSpc ≠ [] := by
    intro hnil
    rw [hnil] at h
    simp at h
  rw [dropWhile_getLast hne, List.getLast?_reverse] at h
  exact dropWhile_head_false (by simpa [lstrip] using h)

theorem pyStripL_getLast_false {l : List Char} {c : Char}
    (h : (pyStripL l).getLast? = some c) : isSpc c = false := by
  unfold pyStripL at h
  rw [List.getLast?_reverse] at h
  exact dropWhile_head_false h

theorem pyStripL_idem (l : List Char) : pyStripL (pyStripL l) = pyStripL l := by
  have h1 : lstrip (pyStripL l) = pyStripL l :=
    dropWhile_eq_self_of_head (fun c hc => pyStripL_head_false hc)
  show ((lstrip (pyStripL l)).reverse.dropWhile isSpc).reverse = pyStripL l
  rw [h1]
  have h2 : (pyStripL l).reverse.dropWhile isSpc = (pyStripL l).reverse := by
    apply dropWhile_eq_self_of_head
    intro c hc
    rw [List.head?_reverse] at hc
    exact pyStripL_getLast_false hc
  rw [h2, List.reverse_reverse]

theorem pyStripL_eq_self_of_all {l : List Char}
    (h : ∀ c ∈ l, isSpc c = false) : pyStripL l = l := by
  unfold pyStripL lstrip
  rw [dropWhile_eq_self_of_all h]
  rw [dropWhile_eq_self_of_all (by intro c hc; exact h c (by simpa using hc))]
  exact List.reverse_reverse l

theorem digitChar_isDigit (d : Nat) : (digitChar d).isDigit = true := by
  unfold digitChar
  split_ifs <;> decide

theorem digitVal_digitChar {d : Nat} (h : d < 10) : digitVal (digitChar d) = d := by
  interval_cases d <;> decide

theorem ne_of_isDigit {c z : Char} (hc : c.isDigit = true) (hz : z.isDigit = false) :
    c ≠ z := by
  intro h
  rw [h, hz] at hc
  exact Bool.false_ne_true hc

theorem isSpc_false_of_isDigit {c : Char} (hc : c.isDigit = true) : isSpc c = false := by
  unfold isSpc
  have h1 := ne_of_isDigit hc (by decide : (' ' : Char).isDigit = false)
  have h2 := ne_of_isDigit hc (by decide : ('\t' : Char).isDigit = false)
  have h3 := ne_of_isDigit hc (by decide : ('\n' : Char).isDigit = false)
  have h4 := ne_of_isDigit hc (by decide : ('\r' : Char).isDigit = false)
  simp [h1, h2, h3, h4]

theorem natToDigitsF_all_digits {fuel n : Nat} {acc : List Char}
    (hacc : ∀ c ∈ acc, c.isDigit = true) :
    ∀ c ∈ natToDigitsF fuel n acc, c.isDigit = true := by
  induction fuel generalizing n acc with
  | zero => simpa [natToDigitsF] using hacc
  | succ f ih =>
      intro c hc
      rw [natToDigitsF] at hc
      by_cases hn : n = 0
      · rw [if_pos hn] at hc
        exact hacc c hc
      · rw [if_neg hn] at hc
        refine ih ?_ c hc
        intro b hb
        rcases List.mem_cons.mp hb with hb | hb
        · rw [hb]; exact digitChar_isDigit _
        · exact hacc b hb

theorem natToDigits_all_digits (n : Nat) :
    ∀ c ∈ natToDigits n, c.isDigit = true := by
  unfold natToDigits
  by_cases hn : n = 0
  · rw [if_pos hn]; intro c hc; simp at hc; rw [hc]; decide
  · rw [if_neg hn]; exact natToDigitsF_all_digits (by simp)

theorem natToDigitsF_acc_ne_nil {fuel n : Nat} {acc : List Char}
    (hacc : acc ≠ []) : natToDigitsF fuel n acc ≠ [] := by
  induction fuel generalizing n acc with
  | zero => simpa [natToDigitsF] using hacc
  | succ f ih =>
      rw [natToDigitsF]
      by_cases hn : n = 0
      · rw [if_pos hn]; exact hacc
      · rw [if_neg hn]; exact ih (by simp)

theorem natToDigits_ne_nil (n : Nat) : natToDigits n ≠ [] := by
  unfold natToDigits
  by_cases hn : n = 0
  · rw [if_pos hn]; simp
  · rw [if_neg hn]
    cases n with
    | zero => exact absurd rfl hn
    | succ m =>
        rw [natToDigitsF, if_neg hn]
        exact natToDigitsF_acc_ne_nil (by simp)

theorem digitsValFrom_cons (a : Nat) (c : Char) (l : List Char) :
    digitsValFrom a (c :: l) = digitsValFrom (a * 10 + digitVal c) l := rfl

theorem digitsValFrom_shift (l : List Char) :
    ∀ a : Nat, digitsValFrom a l = a * 10 ^ l.length + digitsVal l := by
  induction l with
  | nil => intro a; simp [digitsValFrom, digitsVal]
  | cons c t ih =>
      intro a
      rw [digitsValFrom_cons, ih]
      have h2 : digitsVal (c :: t) = digitVal c * 10 ^ t.length + digitsVal t := by
        rw [digitsVal, digitsValFrom_cons, ih]
        simp
      rw [h2]
      simp [List.length_cons]
      ring

theorem natToDigitsF_val {fuel : Nat} :
    ∀ {n : Nat} {acc : List Char}, n ≤ fuel →
      digitsVal (natToDigitsF fuel n acc) = n * 10 ^ acc.length + digitsVal acc := by
  induction fuel with
  | zero =>
      intro n acc hn
      interval_cases n
      simp [natToDigitsF]
  | succ f ih =>
      intro n acc hn
      rw [natToDigitsF]
      by_cases h0 : n = 0
      · rw [if_pos h0, h0]; simp
      · rw [if_neg h0]
        have hdiv : n / 10 ≤ f := by
          have := Nat.div_lt_self (Nat.pos_of_ne_zero h0) (by norm_num : 1 < 10)
          omega
        rw [ih hdiv]
        have hv : digitsVal (digitChar (n % 10) :: acc) =
            (n % 10) * 10 ^ acc.length + digitsVal acc := by
          rw [digitsVal, digitsValFrom_cons, digitsValFrom_shift]
          rw [digitVal_digitChar (Nat.mod_lt n (by norm_num))]
          simp [digitsVal]
        rw [hv, List.length_cons, pow_succ]
        have key : n * 10 ^ acc.length =
            n / 10 * (10 ^ acc.length * 10) + n % 10 * 10 ^ acc.length := by
          conv_lhs => rw [← Nat.div_add_mod n 10]
          ring
        linarith [key]

theorem digitsVal_natToDigits (n : Nat) : digitsVal (natToDigits n) = n := by
  unfold natToDigits
  by_cases hn : n = 0
  · rw [if_pos hn, hn]; decide
  · rw [if_neg hn, natToDigitsF_val (Nat.le_refl n)]
    simp [digitsVal, digitsValFrom]

theorem digitsVal_zero_cons (l : List Char) : digitsVal ('0' :: l) = digitsVal l := by
  rw [digitsVal, digitsValFrom_cons]
  norm_num [digitVal]
  rfl

theorem digitsVal_replicate_zero_append (j : Nat) (l : List Char) :
    digitsVal (List.replicate j '0' ++ l) = digitsVal l := by
  induction j with
  | zero => simp
  | succ i ih =>
      rw [List.replicate_succ, List.cons_append]
      calc digitsVal ('0' :: (List.replicate i '0' ++ l))
          = digitsVal (List.replicate i '0' ++ l) := digitsVal_zero_cons _
        _ = digitsVal l := ih

/-! Canonicalization lemmas for `stripTens` and `mkDec`. -/

theorem stripTensF_fix {fuel m : Nat} {e : Int} (h : ¬(m ≠ 0 ∧ m % 10 = 0)) :
    stripTensF fuel m e = (m, e) := by
  cases fuel with
  | zero => rfl
  | succ f => rw [stripTensF, if_neg h]

theorem stripTensF_spec {fuel : Nat} : ∀ {m : Nat} {e : Int}, m ≤ fuel → m ≠ 0 →
    (stripTensF fuel m e).1 ≠ 0 ∧ (stripTensF fuel m e).1 % 10 ≠ 0 := by
  induction fuel with
  | zero =>
      intro m e hle h0
      exact absurd (Nat.le_zero.mp hle) h0
  | succ f ih =>
      intro m e hle h0
      rw [stripTensF]
      by_cases hc : m ≠ 0 ∧ m % 10 = 0
      · rw [if_pos hc]
        have hlt : m / 10 < m := Nat.div_lt_self (Nat.pos_of_ne_zero h0) (by norm_num)
        exact ih (by omega) (by omega)
      · rw [if_neg hc]
        exact ⟨h0, by omega⟩

theorem stripTensF_pow {k : Nat} : ∀ {fuel m : Nat} {e : Int}, m ≠ 0 → m % 10 ≠ 0 →
    m * 10 ^ k ≤ fuel → stripTensF fuel (m * 10 ^ k) e = (m, e + k) := by
  induction k with
  | zero =>
      intro fuel m e h0 hmod _
      rw [pow_zero, Nat.mul_one, stripTensF_fix (by omega)]
      simp
  | succ j ih =>
      intro fuel m e h0 hmod hle
      have hpow : (0:Nat) < 10 ^ j := Nat.pos_pow_of_pos j (by norm_num)
      have hx : 1 ≤ m * 10 ^ j := Nat.one_le_iff_ne_zero.mpr
        (Nat.mul_ne_zero h0 (Nat.pos_iff_ne_zero.mp hpow))
      have hsplit : m * 10 ^ (j + 1) = m * 10 ^ j * 10 := by ring
      have hM0 : m * 10 ^ (j + 1) ≠ 0 := by omega
      have hMmod : (m * 10 ^ (j + 1)) % 10 = 0 := by
        rw [hsplit]; exact Nat.mul_mod_left _ 10
      cases fuel with
      | zero => exact absurd (Nat.le_zero.mp hle) hM0
      | succ f =>
          rw [stripTensF, if_pos ⟨hM0, hMmod⟩]
          have hdiv : m * 10 ^ (j + 1) / 10 = m * 10 ^ j := by
            rw [hsplit]; exact Nat.mul_div_cancel _ (by norm_num)
          rw [hdiv, ih h0 hmod (by omega)]
          have : e + 1 + (j : Int) = e + ((j : Nat) + 1 : Nat) := by push_cast; ring
          rw [this]

theorem mkDec_canon (neg : Bool) (m : Nat) (e : Int) : Canon (mkDec neg m e) := by
  unfold mkDec
  by_cases h0 : m = 0
  · rw [if_pos h0]
    exact ⟨fun _ => ⟨rfl, rfl⟩, fun h => absurd rfl h⟩
  · rw [if_neg h0]
    have hs := @stripTensF_spec m m e (Nat.le_refl m) h0
    exact ⟨fun h => absurd h hs.1, fun _ => hs.2⟩

theorem mkDec_fix {neg : Bool} {m : Nat} {e : Int} (h0 : m ≠ 0) (hmod : m % 10 ≠ 0) :
    mkDec neg m e = ⟨neg, m, e⟩ := by
  unfold mkDec
  rw [if_neg h0]
  rw [show stripTens m e = (m, e) from stripTensF_fix (by omega)]

theorem mkDec_int {neg : Bool} {mant : Nat} {exp : Int}
    (h : Canon ⟨neg, mant, exp⟩) (he : 0 ≤ exp) :
    mkDec neg (mant * 10 ^ exp.toNat) 0 = ⟨neg, mant, exp⟩ := by
  obtain ⟨hz, hnz⟩ := h
  by_cases h0 : mant = 0
  · obtain ⟨hneg, hexp⟩ := hz h0
    simp only at hneg hexp
    subst h0; subst hneg; subst hexp
    rw [show (0:Nat) * 10 ^ (0:Int).toNat = 0 by simp]
    rfl
  · have hmod : mant % 10 ≠ 0 := hnz h0
    have hN0 : mant * 10 ^ exp.toNat ≠ 0 :=
      Nat.mul_ne_zero h0 (Nat.pos_iff_ne_zero.mp (Nat.pos_pow_of_pos _ (by norm_num)))
    unfold mkDec
    rw [if_neg hN0]
    rw [show stripTens (mant * 10 ^ exp.toNat) 0 = (mant, (0 : Int) + (exp.toNat : Int)) from
      stripTensF_pow h0 hmod (Nat.le_refl _)]
    simp only
    congr 1
    rw [zero_add]
    exact Int.toNat_of_nonneg he

/-! Canonicity of parser output, and the parse/print round trip. -/

theorem parseDigits_canon {neg : Bool} {l : List Char} {d : Dec}
    (h : parseDigits neg l = some d) : Canon d := by
  unfold parseDigits at h
  split_ifs at h <;> exact (Option.some.inj h) ▸ mkDec_canon _ _ _

theorem parseCore_canon {l : List Char} {d : Dec}
    (h : parseCore l = some d) : Canon d := parseDigits_canon h

theorem pyParseL_canon {l : List Char} {d : Dec}
    (h : pyParseL l = some d) : Canon d := parseDigits_canon h

theorem mem_pre_eq_dash {b : Bool} {c : Char}
    (h : c ∈ (if b then ['-'] else [])) : c = '-' := by
  cases b <;> simp_all

theorem printDecL_no_spc (d : Dec) : ∀ c ∈ printDecL d, isSpc c = false := by
  obtain ⟨neg, mant, exp⟩ := d
  intro c hc
  unfold printDecL at hc
  have hds := natToDigits_all_digits mant
  by_cases he : 0 ≤ exp
  · rw [if_pos he] at hc
    rcases List.mem_append.mp hc with hc | hc
    · rw [mem_pre_eq_dash hc]; decide
    · exact isSpc_false_of_isDigit (natToDigits_all_digits _ c hc)
  · rw [if_neg he] at hc
    by_cases hlt : (-(exp : Int)).toNat < (natToDigits mant).length
    · rw [if_pos hlt] at hc
      rcases List.mem_append.mp hc with hc | hc
      · rw [mem_pre_eq_dash hc]; decide
      · rcases List.mem_append.mp hc with hc | hc
        · exact isSpc_false_of_isDigit (hds c (List.mem_of_mem_take hc))
        · rcases List.mem_cons.mp hc with hc | hc
          · rw [hc]; decide
          · exact isSpc_false_of_isDigit (hds c (List.mem_of_mem_drop hc))
    · rw [if_neg hlt] at hc
      rcases List.mem_append.mp hc with hc | hc
      · rw [mem_pre_eq_dash hc]; decide
      · rcases List.mem_cons.mp hc with hc | hc
        · rw [hc]; decide
        · rcases List.mem_cons.mp hc with hc | hc
          · rw [hc]; decide
          · rcases List.mem_append.mp hc with hc | hc
            · rw [List.eq_of_mem_replicate hc]; decide
            · exact isSpc_false_of_isDigit (hds c hc)

theorem parseSign_pre (b : Bool) (body : List Char) (hne : body ≠ [])
    (hhead : ∀ c, body.head? = some c → (c ≠ '+' ∧ c ≠ '-')) :
    parseSign ((if b then ['-'] else []) ++ body) = (b, body) := by
  cases b
  · cases body with
    | nil => exact absurd rfl hne
    | cons c r =>
        obtain ⟨h1, h2⟩ := hhead c rfl
        show parseSign (c :: r) = (false, c :: r)
        simp only [parseSign]
        rw [if_neg h1, if_neg h2]
  · show parseSign ('-' :: body) = (true, body)
    rfl

theorem mem_of_head {l : List Char} {c : Char} (h : l.head? = some c) : c ∈ l := by
  cases l with
  | nil => simp at h
  | cons a t =>
      simp at h
      rw [← h]
      exact List.mem_cons_self a t

theorem head_append_ne_nil {l r : List Char} (h : l ≠ []) :
    (l ++ r).head? = l.head? := by
  cases l with
  | nil => exact absurd rfl h
  | cons a t => rfl

theorem not_sign_of_digits {body : List Char} (hd : ∀ c ∈ body, c.isDigit = true) :
    ∀ c, body.head? = some c → (c ≠ '+' ∧ c ≠ '-') := by
  intro c hc
  have hcd := hd c (mem_of_head hc)
  exact ⟨ne_of_isDigit hcd (by decide), ne_of_isDigit hcd (by decide)⟩

theorem parseDigits_int (neg : Bool) {l : List Char}
    (hl : ∀ c ∈ l, c.isDigit = true) (hne : l ≠ []) :
    parseDigits neg l = some (mkDec neg (digitsVal l) 0) := by
  unfold parseDigits
  rw [dropWhile_eq_nil_of_all hl, takeWhile_eq_self_of_all hl]
  rw [if_pos rfl, if_neg hne]

theorem parseDigits_frac (neg : Bool) {A B : List Char}
    (hA : ∀ c ∈ A, c.isDigit = true) (hB : ∀ c ∈ B, c.isDigit = true)
    (hcond : ¬(A = [] ∧ B = [])) :
    parseDigits neg (A ++ '.' :: B) =
      some (mkDec neg (digitsVal (A ++ B)) (-(B.length : Int))) := by
  unfold parseDigits
  rw [dropWhile_append_stop hA (by decide), takeWhile_append_stop hA (by decide)]
  rw [if_neg (by simp : ¬('.' :: B = []))]
  rw [if_pos (by simp : ('.' :: B).head? = some '.')]
  simp only [List.tail_cons]
  rw [dropWhile_eq_nil_of_all hB, takeWhile_eq_self_of_all hB]
  rw [if_pos ⟨rfl, hcond⟩]

theorem parseCore_printDecL {d : Dec} (h : Canon d) :
    parseCore (printDecL d) = some d := by
  obtain ⟨hz, hnz⟩ := h
  have hds := natToDigits_all_digits d.mant
  by_cases he : 0 ≤ d.exp
  · -- integral value: printed as an optional sign and the digits of
    -- mant * 10 ^ exp
    have hbd := natToDigits_all_digits (d.mant * 10 ^ d.exp.toNat)
    have hbn := natToDigits_ne_nil (d.mant * 10 ^ d.exp.toNat)
    have hpr : printDecL d =
        (if d.neg then ['-'] else []) ++ natToDigits (d.mant * 10 ^ d.exp.toNat) := by
      unfold printDecL
      rw [if_pos he]
    unfold parseCore
    rw [hpr, parseSign_pre d.neg _ hbn (not_sign_of_digits hbd)]
    show parseDigits d.neg (natToDigits (d.mant * 10 ^ d.exp.toNat)) = some d
    rw [parseDigits_int d.neg hbd hbn, digitsVal_natToDigits]
    rw [mkDec_int ⟨hz, hnz⟩ he]
  · -- fractional value
    have h0 : d.mant ≠ 0 := by
      intro h0
      have hex := (hz h0).2
      exact he (by simp [hex])
    have hmod := hnz h0
    have hdsne := natToDigits_ne_nil d.mant
    by_cases hlt : (-d.exp).toNat < (natToDigits d.mant).length
    · -- digits on both sides of the point
      have hpr : printDecL d =
          (if d.neg then ['-'] else []) ++
            ((natToDigits d.mant).take
              ((natToDigits d.mant).length - (-d.exp).toNat) ++
              '.' :: (natToDigits d.mant).drop
                ((natToDigits d.mant).length - (-d.exp).toNat)) := by
        unfold printDecL
        rw [if_neg he, if_pos hlt]
      have hAd : ∀ c ∈ (natToDigits d.mant).take
          ((natToDigits d.mant).length - (-d.exp).toNat), c.isDigit = true :=
        fun c hc => hds c (List.mem_of_mem_take hc)
      have hBd : ∀ c ∈ (natToDigits d.mant).drop
          ((natToDigits d.mant).length - (-d.exp).toNat), c.isDigit = true :=
        fun c hc => hds c (List.mem_of_mem_drop hc)
      have hk1 : 1 ≤ (-d.exp).toNat := by omega
      have hAne : (natToDigits d.mant).take
          ((natToDigits d.mant).length - (-d.exp).toNat) ≠ [] := by
        intro hnil
        have hlen := congrArg List.length hnil
        rw [List.length_take] at hlen
        simp at hlen
        omega
      have hbody_ne : (natToDigits d.mant).take
          ((natToDigits d.mant).length - (-d.exp).toNat) ++
          '.' :: (natToDigits d.mant).drop
            ((natToDigits d.mant).length - (-d.exp).toNat) ≠ [] := by
        simp
      have hhead : ∀ c, ((natToDigits d.mant).take
          ((natToDigits d.mant).length - (-d.exp).toNat) ++
          '.' :: (natToDigits d.mant).drop
            ((natToDigits d.mant).length - (-d.exp).toNat)).head? = some c →
          (c ≠ '+' ∧ c ≠ '-') := by
        intro c hc
        rw [head_append_ne_nil hAne] at hc
        exact not_sign_of_digits hAd c hc
      unfold parseCore
      rw [hpr, parseSign_pre d.neg _ hbody_ne hhead]
      rw [parseDigits_frac d.neg hAd hBd (fun hand => hAne hand.1)]
      rw [List.take_append_drop, digitsVal_natToDigits]
      have hBlen : ((natToDigits d.mant).drop
          ((natToDigits d.mant).length - (-d.exp).toNat)).length = (-d.exp).toNat := by
        rw [List.length_drop]
        omega
      rw [hBlen, mkDec_fix h0 hmod]
      have hexp : -(((-d.exp).toNat : Nat) : Int) = d.exp := by omega
      rw [hexp]
    · -- value below one: printed as 0.00...0digits
      have hpr : printDecL d =
          (if d.neg then ['-'] else []) ++
            ('0' :: '.' ::
              (List.replicate ((-d.exp).toNat - (natToDigits d.mant).length) '0' ++
                natToDigits d.mant)) := by
        unfold printDecL
        rw [if_neg he, if_neg hlt]
      have hrest : ∀ c ∈ List.replicate
          ((-d.exp).toNat - (natToDigits d.mant).length) '0' ++ natToDigits d.mant,
          c.isDigit = true := by
        intro c hc
        rcases List.mem_append.mp hc with hc | hc
        · rw [List.eq_of_mem_replicate hc]; decide
        · exact hds c hc
      have hA0 : ∀ c ∈ ['0'], c.isDigit = true := by
        intro c hc; simp at hc; rw [hc]; decide
      unfold parseCore
      rw [hpr]
      rw [show ('0' :: '.' ::
          (List.replicate ((-d.exp).toNat - (natToDigits d.mant).length) '0' ++
            natToDigits d.mant)) = ['0'] ++ '.' ::
          (List.replicate ((-d.exp).toNat - (natToDigits d.mant).length) '0' ++
            natToDigits d.mant) from rfl]
      rw [parseSign_pre d.neg _ (by simp) (by
        intro c hc
        simp at hc
        subst hc
        exact ⟨by decide, by decide⟩)]
      rw [parseDigits_frac d.neg hA0 hrest (by simp)]
      rw [show (['0'] ++ (List.replicate
          ((-d.exp).toNat - (natToDigits d.mant).length) '0' ++ natToDigits d.mant)) =
          '0' :: (List.replicate
          ((-d.exp).toNat - (natToDigits d.mant).length) '0' ++ natToDigits d.mant)
          from rfl]
      rw [digitsVal_zero_cons, digitsVal_replicate_zero_append, digitsVal_natToDigits]
      have hlen : (List.replicate
          ((-d.exp).toNat - (natToDigits d.mant).length) '0' ++
          natToDigits d.mant).length = (-d.exp).toNat := by
        rw [List.length_append, List.length_replicate]
        omega
      rw [hlen, mkDec_fix h0 hmod]
      have hexp : -(((-d.exp).toNat : Nat) : Int) = d.exp := by omega
      rw [hexp]

theorem pyParseL_printDecL {d : Dec} (h : Canon d) :
    pyParseL (printDecL d) = some d := by
  unfold pyParseL
  rw [pyStripL_eq_self_of_all (printDecL_no_spc d)]
  exact parseCore_printDecL h

/-! Idempotence of the quantity normalization on non-plus-headed results. -/

theorem stripPlusL_eq_self {l : List Char} (h : l.head? ≠ some '+') :
    stripPlusL l = l := by
  cases l with
  | nil => rfl
  | cons c t =>
      show (if c = '+' then t else c :: t) = c :: t
      rw [if_neg]
      intro hc
      exact h (by rw [hc]; simp)

theorem normQL_idem {l r : List Char} (h : normQL l = some r)
    (hr : r.head? ≠ some '+') : normQL r = some r := by
  unfold normQL at h ⊢
  rw [stripPlusL_eq_self hr]
  rcases hp : pyParseL (stripPlusL l) with _ | d
  · rw [hp] at h
    by_cases hnil : pyStripL (stripPlusL l) = []
    · rw [if_pos hnil] at h
      exact absurd h (by simp)
    · rw [if_neg hnil] at h
      have h' : some (pyStripL (stripPlusL l)) = some r := h
      have hr_eq : r = pyStripL (stripPlusL l) := (Option.some.inj h').symm
      have hparse_r : pyParseL r = none := by
        rw [hr_eq]
        show parseCore (pyStripL (pyStripL (stripPlusL l))) = none
        rw [pyStripL_idem]
        exact hp
      rw [hparse_r]
      show (if pyStripL r = [] then none else some (pyStripL r)) = some r
      have hsr : pyStripL r = r := by rw [hr_eq, pyStripL_idem]
      rw [hsr, if_neg (hr_eq ▸ hnil)]
  · rw [hp] at h
    have h' : some (printDecL d) = some r := h
    have hr_eq : r = printDecL d := (Option.some.inj h').symm
    have hcanon : Canon d := pyParseL_canon hp
    have hpr : pyParseL r = some d := by
      rw [hr_eq]
      exact pyParseL_printDecL hcanon
    rw [hpr]
    show some (printDecL d) = some r
    rw [hr_eq]

/-- C8 counterexample: quantity normalization is not idempotent on every
input.  `_normalize_unique_value` strips at most one leading `+` per call:
for the string value `++x` (whose plus-stripped form `+x` is not a Python
float), one normalization yields `+x` and normalizing that result yields
`x`, so normalizing the normalized result differs from normalizing once. -/
theorem quantity_normalization_not_idempotent :
    normalizeUniqueValue (some "++x") (some "quantity") = some "+x" ∧
    normalizeUniqueValue
        (normalizeUniqueValue (some "++x") (some "quantity")) (some "quantity") =
      some "x" ∧
    normalizeUniqueValue
        (normalizeUniqueValue (some "++x") (some "quantity")) (some "quantity") ≠
      normalizeUniqueValue (some "++x") (some "quantity") := by
  refine ⟨by decide, by decide, by decide⟩

/-- C8 amended: `"+5.0"`, `"5"` and `"5.00"` all normalize to the same
string `"5"` under a quantity datatype, and normalization is idempotent on
every input whose normalized form does not begin with `+` (the
counterexample forces this restriction: the non-numeric fallback strips
only one leading `+` per pass, so a fallback result that still begins with
`+` loses one more `+` on the next pass). -/
theorem quantity_normalization_amended :
    (normalizeUniqueValue (some "+5.0") (some "quantity") = some "5" ∧
     normalizeUniqueValue (some "5") (some "quantity") = some "5" ∧
     normalizeUniqueValue (some "5.00") (some "quantity") = some "5") ∧
    (∀ s t : String,
      normalizeUniqueValue (some s) (some "quantity") = some t →
      t.data.head? ≠ some '+' →
      normalizeUniqueValue (some t) (some "quantity") = some t) := by
  constructor
  · exact ⟨by decide, by decide, by decide⟩
  · intro s t hst hhead
    rw [normalizeUniqueValue_some_quantity] at hst ⊢
    rcases Option.map_eq_some'.mp hst with ⟨l, hl, hmk⟩
    have htd : t.data = l := by rw [← hmk]
    rw [normQL_idem (htd ▸ hl) (htd ▸ hhead)]
    rw [Option.map_some']

/-- Witness for the amended C8 theorem at the concrete input `"7.50"`,
which normalizes to `"7.5"` and is then a fixed point. -/
theorem quantity_normalization_amended_witness :
    (normalizeUniqueValue (some "7.50") (some "quantity") = some "7.5" ∧
     ("7.5" : String).data.head? ≠ some '+') ∧
    normalizeUniqueValue (some "7.5") (some "quantity") = some "7.5" :=
  ⟨⟨by decide, by decide⟩,
    quantity_normalization_amended.2 "7.50" "7.5" (by decide) (by decide)⟩
example : normalizeUniqueValue (some "7.50") (some "quantity") = some "7.5" := by decide
example : normalizeUniqueValue (some "++x") (some "quantity") = some "+x" := by decide
example : normalizeUniqueValue (some "+x") (some "quantity") = some "x" := by decide
example : normalizeUniqueValue (some "-2.5") (some "quantity") = some "-2.5" := by decide
example : normalizeUniqueValue (some "0.05") (some "quantity") = some "0.05" := by decide
example : normalizeUniqueValue (some "  a b ") none = some "a b" := by decide
example : normalizeUniqueValue (some "   ") (some "quantity") = none := by decide

/-! ## Entity documents and resolved values

Modelled from the spec: the entity document wire shape of section 3
(`RaiseWikibase.datamodel` is not under `src/`; only `RaiseWikibase/
__init__.py` re-exporting `entity`, `label`, `description`, `snak`,
`claim` is).  Dicts keyed by language or property id become association
lists; a present `id` key becomes `some`. -/

/-- One monolingual term: `{language, value}`. -/
structure Term where
  language : String
  value : String
  deriving DecidableEq, Repr

/-- A resolved statement value: a scalar string or a composite tuple. -/
inductive PyVal where
  | str (s : String)
  | tuple (xs : List PyVal)

/-- A snak: one property/value assertion. -/
structure Snak where
  property : String
  datatype : String
  snaktype : String
  datavalue : PyVal

/-- A reference block: grouped snaks plus their property order. -/
structure Reference where
  snaks : List (String × List Snak)
  snaksOrder : List String

/-- A claim: mainsnak, optional qualifiers with order, reference blocks,
rank and the optional persisted claim id. -/
structure Claim where
  mainsnak : Snak
  qualifiers : List (String × List Snak)
  qualifiersOrder : List String
  references : List Reference
  rank : String
  id : Option String

/-- An entity document. -/
structure Entity where
  id : Option String
  etype : String
  labels : List (String × Term)
  descriptions : List (String × Term)
  aliases : List (String × List Term)
  claims : List (String × List Claim)

/-- Modelled from the spec: `RaiseWikibase.datamodel.entity` — a fresh
document with the given parts and no `id` key. -/
def entityMk (labels descriptions : List (String × Term))
    (aliases : List (String × List Term)) (claims : List (String × List Claim))
    (etype : String) : Entity :=
  { id := none, etype := etype, labels := labels, descriptions := descriptions,
    aliases := aliases, claims := claims }

/-- Modelled from the spec: `RaiseWikibase.datamodel.label` — a
single-language labels dict. -/
def labelMk (language value : String) : List (String × Term) :=
  [(language, ⟨language, value⟩)]

/-! ## Rows and the shared strategy plumbing

A processed row carries the helper columns (`__qid`, `__item`,
`__new_label`, `__label`, `__new_description`, `__description`) plus the
named data cells. -/

structure PRow where
  qid : Option String
  item : Option Entity
  newLabel : Option String
  rowLabel : Option String
  newDescription : Option String
  rowDescription : Option String
  cells : List (String × String)

/-- `BatchMixin._set_labels_and_descriptions` (`update_strategies.py`
lines 29-49): `__new_label` wins over `__label`, `__new_description` over
`__description`; a missing pair leaves the document part untouched. -/
def setLabelsDescriptions (item : Entity) (row : PRow) (language : String) : Entity :=
  { item with
    labels := (row.newLabel.elim row.rowLabel some).elim item.labels
      (fun v => aset item.labels language ⟨language, v⟩),
    descriptions := (row.newDescription.elim row.rowDescription some).elim
      item.descriptions
      (fun v => aset item.descriptions language ⟨language, v⟩) }

@[simp] theorem setLabelsDescriptions_claims (item : Entity) (row : PRow) (language : String) :
    (setLabelsDescriptions item row language).claims = item.claims := rfl

/-- Qid of a row per `UpdateStrategy._get_or_init_item` lines 159-163:
`__qid`, else the `id` of the `__item` document, and Python-falsy values
(`None`, the empty string) yield `none`. -/
def rowQid (row : PRow) : Option String :=
  (row.qid.elim (row.item.elim none (fun it => it.id)) some).elim none
    (fun s => if s = "" then none else some s)

/-! ## Resolution context

`MappingContext` (`context.py`): property cache and collaborator lookups.
The property database lookup (`DBConnection.find_property_info`), the
entity fetch (`context.get_item`) and the label point lookup
(`context.get_qid`) are not under `src/` — only their callers are — and
are modelled from the spec as pure table lookups (section 4.2: point
lookups against per-run caches; section 3: caches are never invalidated
mid-run, so the on-demand cache write in `get_property_info` cannot change
any later answer and is dropped from the embedding). -/

structure PropInfo where
  id : String
  datatype : Option String
  deriving DecidableEq, Repr

/-- Lookup keyed by a (label, description) pair. -/
def plookup {α : Type} : List ((String × String) × α) → (String × String) → Option α
  | [], _ => none
  | (k, v) :: rest, key => if k = key then some v else plookup rest key

structure MCtx where
  language : String
  pidCache : List (String × PropInfo)
  dbProps : List (String × PropInfo)
  qidByLabel : List (String × String)
  qidByPair : List ((String × String) × String)
  itemCache : List (String × Entity)

/-- Modelled from the spec: `context.get_item` — the per-run entity
document fetch used by `_get_or_init_item` (line 166). -/
def getItem (ctx : MCtx) (qid : String) : Option Entity := alookup ctx.itemCache qid

/-- `MappingContext.get_property_info` (`context.py` lines 121-130):
cached property info, else the database lookup; returns a possibly-`none`
id together with the datatype. -/
def getPropertyInfo (ctx : MCtx) (p : String) : Option String × Option String :=
  (alookup ctx.pidCache p).elim
    ((alookup ctx.dbProps p).elim (none, none) (fun info => (some info.id, info.datatype)))
    (fun info => (some info.id, info.datatype))

/-- Modelled from the spec: `context.get_qid` — the label point lookup
used by `ValueResolver.resolve` (`value_resolution.py` lines 187, 204);
the method is absent from `context.py`, whose nearest counterpart is
`get_qid_by_label` (spec section 4.2). -/
def getQid (ctx : MCtx) (lbl : String) : Option String := alookup ctx.qidByLabel lbl

/-- Modelled from the spec: the (label, description) variant of
`context.get_qid` used by `ValueResolver.resolve` (line 179). -/
def getQidPair (ctx : MCtx) (key : String × String) : Option String :=
  plookup ctx.qidByPair key

/-- Python truthiness filter on an optional string: `None` and the empty
string are falsy. -/
def truthyOpt (o : Option String) : Option String :=
  o.elim none (fun s => if s = "" then none else some s)

/-- Embedded Python exceptions. -/
inductive PyErr where
  | valueError (msg : String)
  | keyError (msg : String)
  deriving DecidableEq, Repr

/-- `MappingContext.get_property_id` (`context.py` lines 132-139): raises
`ValueError` when the argument is falsy and when the property cannot be
resolved; otherwise returns the property id. -/
def getPropertyId (ctx : MCtx) (p : Option String) : Except PyErr String :=
  match p with
  | none => .error (.valueError "Property label or id is required")
  | some lbl =>
      if lbl = "" then .error (.valueError "Property label or id is required")
      else
        match (getPropertyInfo ctx lbl).1 with
        | some pid =>
            if pid = "" then .error (.valueError ("Property not found: " ++ lbl))
            else .ok pid
        | none => .error (.valueError ("Property not found: " ++ lbl))

/-! ## Value resolution (`value_resolution.py` lines 163-207)

`ValueSpec` (`models.py` lines 15-19) is `str | dict | list`; the dict
shape carries the `column` / `value` / `label` alternatives (checked in
that order) and the optional `value_description` sub-spec used with
`column`.  The untyped-`Any` branch of the source (`Invalid value spec
element` for a non-str/dict/list element) is unreachable in the typed
embedding. -/

inductive VSpec where
  | strSpec (s : String)
  | dictSpec (column : Option String) (value : Option String) (label : Option String)
      (valueDescription : Option String)
  | listSpec (xs : List VSpec)

/-- Row cell access `row[c]`: a missing column raises `KeyError`. -/
def rowGet (row : PRow) (c : String) : Except PyErr String :=
  (alookup row.cells c).elim (.error (.keyError c)) .ok

/-- Placeholder substitution of `wbk.mapping.utils.create_description_row`:
replace each `{col}` in the template by the row cell, raising `KeyError` for a
placeholder column missing from the row (an unterminated brace is dropped;
the source would fail inside `str.format` instead). -/
def renderGo (cells : List (String × String)) : Option (List Char) → List Char →
    Except PyErr (List Char)
  | none, [] => .ok []
  | none, c :: rest =>
      if c = '{' then renderGo cells (some []) rest
      else (renderGo cells none rest).map (fun out => c :: out)
  | some _, [] => .ok []
  | some buf, c :: rest =>
      if c = '}' then
        match alookup cells ⟨buf⟩ with
        | some v => (renderGo cells none rest).map (fun out => v.data ++ out)
        | none => .error (.keyError ⟨buf⟩)
      else renderGo cells (some (buf ++ [c])) rest

/-- `create_description_row(row, template)` on the embedded row. -/
def renderDescRow (row : PRow) (t : String) : Except PyErr String :=
  (renderGo row.cells none t.data).map (fun l => ⟨l⟩)

mutual

/-- `resolve_element` of `ValueResolver.resolve`: a bare string is a row
column access; a dict dispatches on `column` (with the optional
`value_description` unique-key lookup), then `value`, then `label` (with
the wikibase-item label lookup), and raises `ValueError` when none of the
three keys is present; a list resolves element-wise into a tuple. -/
def resolveElement (row : PRow) (datatype : String) (ctx : MCtx) :
    VSpec → Except PyErr PyVal
  | .strSpec s => (rowGet row s).map .str
  | .dictSpec col v lab vdesc =>
      match col with
      | some c =>
          match vdesc with
          | some t =>
              match rowGet row c with
              | .error e => .error e
              | .ok cell =>
                  match renderDescRow row t with
                  | .error e => .error e
                  | .ok desc =>
                      match truthyOpt (getQidPair ctx (cell, desc)) with
                      | some q => .ok (.str q)
                      | none => .ok (.str cell)
          | none => (rowGet row c).map .str
      | none =>
          match v with
          | some sv => .ok (.str sv)
          | none =>
              match lab with
              | some lb =>
                  if datatype = "wikibase-item" then
                    match truthyOpt (getQid ctx lb) with
                    | some q => .ok (.str q)
                    | none => .ok (.str lb)
                  else .ok (.str lb)
              | none => .error (.valueError "Invalid value spec dict")
  | .listSpec xs => (resolveList row datatype ctx xs).map .tuple

/-- Element-wise resolution of a composite value spec. -/
def resolveList (row : PRow) (datatype : String) (ctx : MCtx) :
    List VSpec → Except PyErr (List PyVal)
  | [] => .ok []
  | x :: rest =>
      match resolveElement row datatype ctx x with
      | .error e => .error e
      | .ok v =>
          match resolveList row datatype ctx rest with
          | .error e => .error e
          | .ok vs => .ok (v :: vs)

end

/-- `ValueResolver.resolve`: `None` raises `ValueError`; a list becomes a
tuple; otherwise the resolved element additionally goes through the
label-to-qid lookup when the datatype is `wikibase-item` and the value is
a string, falling back to the raw string when the lookup misses. -/
def resolve (spec : Option VSpec) (row : PRow) (datatype : String) (ctx : MCtx) :
    Except PyErr PyVal :=
  match spec with
  | none => .error (.valueError ("No value specified for datatype " ++ datatype))
  | some (.listSpec xs) => (resolveList row datatype ctx xs).map .tuple
  | some sp =>
      match resolveElement row datatype ctx sp with
      | .error e => .error e
      | .ok (.str s) =>
          if datatype = "wikibase-item" then
            match truthyOpt (getQid ctx s) with
            | some q => .ok (.str q)
            | none => .ok (.str s)
          else .ok (.str s)
      | .ok v => .ok v

/-! ## Claim construction (`claim_builder.py`)

The claim/snak constructors of `RaiseWikibase.datamodel` are not under
`src/` and are modelled from the spec (section 3): a snak is a
property/value assertion; a claim dict maps the property id to a
one-element claim list with grouped qualifier snaks plus their order and
at most one reference block. -/

/-- Modelled from the spec: `RaiseWikibase.datamodel.snak`. -/
def snakMk (datatype : String) (value : PyVal) (prop : String) (snaktype : String) : Snak :=
  ⟨prop, datatype, snaktype, value⟩

/-- Group a snak list by property, preserving arrival order. -/
def addSnak (m : List (String × List Snak)) (s : Snak) : List (String × List Snak) :=
  (alookup m s.property).elim (m ++ [(s.property, [s])])
    (fun lst => aset m s.property (lst ++ [s]))

/-- Grouped snaks of a snak list. -/
def groupSnaks (snaks : List Snak) : List (String × List Snak) :=
  snaks.foldl addSnak []

/-- First-seen property order of a snak list. -/
def snakOrder (snaks : List Snak) : List String :=
  snaks.foldl (fun acc s => if s.property ∈ acc then acc else acc ++ [s.property]) []

/-- Modelled from the spec: `RaiseWikibase.datamodel.claim` — a claim dict
`{pid: [claim]}` with normal rank, no id, grouped qualifiers and one
reference block when reference snaks are given. -/
def claimMk (prop : String) (mainsnak : Snak) (qualifiers references : List Snak) :
    List (String × List Claim) :=
  [(prop,
    [{ mainsnak := mainsnak,
       qualifiers := groupSnaks qualifiers,
       qualifiersOrder := snakOrder qualifiers,
       references :=
         if references.isEmpty then [] else [⟨groupSnaks references, snakOrder references⟩],
       rank := "normal",
       id := none }])]

/-- Qualifier / reference definition (`ClaimMapping` of `models.py`; its
`property_id`/`property_label` pair is modelled as the single label-or-id
`property` field that the pipeline passes to the context). -/
structure ClaimDef where
  property : Option String
  value : Option VSpec
  datatype : String

/-- Statement definition (`StatementMapping` of `models.py`; also stands
for the `StatementDefinition` that `update_strategies.py` and
`context.py` import from `..models` but which is absent from it —
modelled from the spec, section 3). -/
structure StmtDef where
  property : Option String
  value : Option VSpec
  datatype : String
  qualifiers : List ClaimDef
  references : List ClaimDef
  rank : Option String

/-- `ClaimBuilder._create_snak` (lines 20-43): property resolution errors
and value resolution errors both propagate. -/
def createSnak (cm : ClaimDef) (row : PRow) (ctx : MCtx) : Except PyErr Snak :=
  match getPropertyId ctx cm.property with
  | .error e => .error e
  | .ok pid =>
      match resolve cm.value row cm.datatype ctx with
      | .error e => .error e
      | .ok v => .ok (snakMk cm.datatype v pid "value")

/-- Snaks of a qualifier or reference list, stopping at the first raised
exception. -/
def createSnaks (cms : List ClaimDef) (row : PRow) (ctx : MCtx) :
    Except PyErr (List Snak) :=
  match cms with
  | [] => .ok []
  | cm :: rest =>
      match createSnak cm row ctx with
      | .error e => .error e
      | .ok s =>
          match createSnaks rest row ctx with
          | .error e => .error e
          | .ok ss => .ok (s :: ss)

/-- A resolved tuple containing a single-space element discards the claim
(`claim_builder.py` line 66). -/
def tupleHasBlank : PyVal → Bool
  | .tuple xs => xs.any (fun p => match p with | .str s => s = " " | _ => false)
  | _ => false

/-- `claim_dict[property_id][0]["rank"] = statement.rank` for a
non-default rank (`claim_builder.py` lines 96-97). -/
def applyRank (cd : List (String × List Claim)) (rank : Option String) (pid : String) :
    List (String × List Claim) :=
  rank.elim cd (fun r =>
    if r = "normal" then cd
    else
      (alookup cd pid).elim cd (fun lst =>
        match lst with
        | [] => cd
        | c :: rest => aset cd pid ({ c with rank := r } :: rest)))

/-- `ClaimBuilder.build_claim` (lines 45-99): resolves the property id
through `context.get_property_id` (whose `ValueError` is not caught — the
`try` block covers only the main value resolution), maps a `ValueError`
from the main value resolution to `None`, discards blank-element tuples,
builds qualifier and reference snaks (their errors propagate), and
returns the claim dict with the configured rank applied.  The dead
`if not mainsnak_dict` guard of line 86 is omitted: the snak constructor
always returns a non-empty dict. -/
def buildClaim (stmt : StmtDef) (row : PRow) (ctx : MCtx) :
    Except PyErr (Option (List (String × List Claim))) :=
  match getPropertyId ctx stmt.property with
  | .error e => .error e
  | .ok pid =>
      match resolve stmt.value row stmt.datatype ctx with
      | .error (.valueError _) => .ok none
      | .error e => .error e
      | .ok v =>
          if tupleHasBlank v then .ok none
          else
            match createSnaks stmt.qualifiers row ctx with
            | .error e => .error e
            | .ok quals =>
                match createSnaks stmt.references row ctx with
                | .error e => .error e
                | .ok refs =>
                    .ok (some (applyRank
                      (claimMk pid (snakMk stmt.datatype v pid "value") quals refs)
                      stmt.rank pid))

/-! ## Update strategies: shared working-copy memoization and the row loop

`UpdateStrategy._get_or_init_item` (`update_strategies.py` lines 153-171)
and the common per-row shape of every strategy `run` (reset, iterate rows,
get-or-init the working copy, set labels/descriptions, mutate the claims,
flush).  The claims-level mutation differs per strategy and is a
parameter, matching the dependency-injected design of the source; the
context is threaded through the run state so that its preservation is a
provable property rather than a typing accident (the Python deep-copies
the fetched document before mutating, which is exactly what the
functional update of the working list embeds). -/

/-- Result of `_get_or_init_item`: the qid and its working document (if
any), the possibly-extended working map, and the (unchanged) context. -/
def getOrInitItem (ctx : MCtx) (row : PRow) (working : List (String × Entity)) :
    Option (String × Entity) × List (String × Entity) × MCtx :=
  (rowQid row).elim (none, working, ctx) (fun qid =>
    (alookup working qid).elim
      (((getItem ctx qid).elim row.item some).elim (none, working, ctx)
        (fun base => (some (qid, base), aset working qid base, ctx)))
      (fun it => (some (qid, it), working, ctx)))

/-- State carried through a strategy run. -/
structure RunState (σ : Type) where
  working : List (String × Entity)
  acc : σ
  ctx : MCtx

/-- One row of a strategy `run` loop: get-or-init the working copy, set
labels and descriptions, apply the strategy's claims mutation, store the
result back under the row's qid. -/
def stepRow {σ : Type} (mutate : σ → Entity → PRow → Entity × σ)
    (st : RunState σ) (row : PRow) : RunState σ :=
  (getOrInitItem st.ctx row st.working).1.elim
    { st with working := (getOrInitItem st.ctx row st.working).2.1,
              ctx := (getOrInitItem st.ctx row st.working).2.2 }
    (fun qi =>
      { working :=
          aset (getOrInitItem st.ctx row st.working).2.1 qi.1
            (mutate st.acc (setLabelsDescriptions qi.2 row st.ctx.language) row).1,
        acc := (mutate st.acc (setLabelsDescriptions qi.2 row st.ctx.language) row).2,
        ctx := (getOrInitItem st.ctx row st.working).2.2 })

/-- A full strategy run over the rows of a chunk, starting from the empty
working map (`_reset_working_items`). -/
def runRows {σ : Type} (mutate : σ → Entity → PRow → Entity × σ)
    (ctx : MCtx) (rows : List PRow) (s0 : σ) : RunState σ :=
  rows.foldl (stepRow mutate) ⟨[], s0, ctx⟩

/-- `_flush_working_items`: the accumulated documents, in insertion
order. -/
def flushWorking (w : List (String × Entity)) : List Entity :=
  w.map (fun kv => kv.2)

/-- The document produced for one qid by two rows processed in order: the
second row's mutation is applied to the output of the first row's, not to
a fresh copy of the base document. -/
def accumTwice {σ : Type} (mutate : σ → Entity → PRow → Entity × σ)
    (language : String) (base : Entity) (r1 r2 : PRow) (s0 : σ) : Entity × σ :=
  mutate (mutate s0 (setLabelsDescriptions base r1 language) r1).2
    (setLabelsDescriptions (mutate s0 (setLabelsDescriptions base r1 language) r1).1
      r2 language) r2

/-- C2: for every update strategy (any claims mutation `mutate`, any
counter state), two rows of one run resolving to the same existing entity
id share the memoized working copy: the run produces a single working
entry for that id, initialized from the fetched document exactly once, the
second row's mutation is applied on top of the first row's output
(`accumTwice`), and the single flushed document carries both rows'
changes. -/
theorem strategy_same_qid_accumulates {σ : Type}
    (mutate : σ → Entity → PRow → Entity × σ) (ctx : MCtx) (r1 r2 : PRow)
    (q : String) (base : Entity) (s0 : σ)
    (h1 : rowQid r1 = some q) (h2 : rowQid r2 = some q)
    (hc : getItem ctx q = some base) :
    (runRows mutate ctx [r1, r2] s0).working =
      [(q, (accumTwice mutate ctx.language base r1 r2 s0).1)] ∧
    flushWorking (runRows mutate ctx [r1, r2] s0).working =
      [(accumTwice mutate ctx.language base r1 r2 s0).1] ∧
    (runRows mutate ctx [r1, r2] s0).acc =
      (accumTwice mutate ctx.language base r1 r2 s0).2 := by
  have hstep1 : stepRow mutate ⟨[], s0, ctx⟩ r1 =
      ⟨[(q, (mutate s0 (setLabelsDescriptions base r1 ctx.language) r1).1)],
       (mutate s0 (setLabelsDescriptions base r1 ctx.language) r1).2, ctx⟩ := by
    simp [stepRow, getOrInitItem, h1, hc, aset]
  have hstep2 : stepRow mutate
      ⟨[(q, (mutate s0 (setLabelsDescriptions base r1 ctx.language) r1).1)],
       (mutate s0 (setLabelsDescriptions base r1 ctx.language) r1).2, ctx⟩ r2 =
      ⟨[(q, (accumTwice mutate ctx.language base r1 r2 s0).1)],
       (accumTwice mutate ctx.language base r1 r2 s0).2, ctx⟩ := by
    simp [stepRow, getOrInitItem, h2, accumTwice, aset]
  have hrun : runRows mutate ctx [r1, r2] s0 =
      ⟨[(q, (accumTwice mutate ctx.language base r1 r2 s0).1)],
       (accumTwice mutate ctx.language base r1 r2 s0).2, ctx⟩ := by
    show stepRow mutate (stepRow mutate ⟨[], s0, ctx⟩ r1) r2 = _
    rw [hstep1, hstep2]
  rw [hrun]
  exact ⟨rfl, rfl, rfl⟩

theorem stepRow_ctx {σ : Type} (mutate : σ → Entity → PRow → Entity × σ)
    (st : RunState σ) (row : PRow) : (stepRow mutate st row).ctx = st.ctx := by
  rcases hq : rowQid row with _ | q
  · simp [stepRow, getOrInitItem, hq]
  · rcases h2 : alookup st.working q with _ | it
    · rcases h3 : (getItem st.ctx q).elim row.item some with _ | b <;>
        simp [stepRow, getOrInitItem, hq, h2, h3]
    · simp [stepRow, getOrInitItem, hq, h2]

theorem foldl_stepRow_ctx {σ : Type} (mutate : σ → Entity → PRow → Entity × σ)
    (rows : List PRow) : ∀ st : RunState σ,
    (rows.foldl (stepRow mutate) st).ctx = st.ctx := by
  induction rows with
  | nil => intro st; rfl
  | cons r rest ih =>
      intro st
      rw [List.foldl_cons, ih (stepRow mutate st r), stepRow_ctx]

/-- C9: every update strategy mutates only the working copy of a fetched
document: after a run (any rows, any claims mutation) the threaded context
— including the entity cache the document was fetched from — is unchanged,
the cached document for the row's qid is still the original, and only the
flushed working copy carries the mutation. -/
theorem strategy_mutates_only_copy {σ : Type}
    (mutate : σ → Entity → PRow → Entity × σ) (ctx : MCtx) (rows : List PRow)
    (s0 : σ) (r : PRow) (q : String) (base : Entity)
    (hr : rowQid r = some q) (hc : getItem ctx q = some base) :
    (runRows mutate ctx rows s0).ctx = ctx ∧
    getItem (runRows mutate ctx [r] s0).ctx q = some base ∧
    flushWorking (runRows mutate ctx [r] s0).working =
      [(mutate s0 (setLabelsDescriptions base r ctx.language) r).1] := by
  refine ⟨foldl_stepRow_ctx mutate rows ⟨[], s0, ctx⟩, ?_, ?_⟩
  · rw [show (runRows mutate ctx [r] s0).ctx = ctx from
      foldl_stepRow_ctx mutate [r] ⟨[], s0, ctx⟩]
    exact hc
  · have hstep : stepRow mutate ⟨[], s0, ctx⟩ r =
        ⟨[(q, (mutate s0 (setLabelsDescriptions base r ctx.language) r).1)],
         (mutate s0 (setLabelsDescriptions base r ctx.language) r).2, ctx⟩ := by
      simp [stepRow, getOrInitItem, hr, hc, aset]
    show flushWorking (stepRow mutate ⟨[], s0, ctx⟩ r).working = _
    rw [hstep]
    rfl

/-! ## The Keep strategy (`KeepStrategy.run`, lines 305-356) -/

/-- Modelled from the spec: the snak matcher of `ItemDefinition`
(section 3); `update_strategies.py` reads `mapping_rule.item.snak` with
`property` and `value` fields. -/
structure SnakMatcher where
  property : Option String
  value : Option VSpec

/-- Modelled from the spec: `ItemDefinition` (section 3), reduced to the
field the strategies consume. -/
structure ItemDef where
  snak : Option SnakMatcher

/-- Modelled from the spec: `MappingRule` (section 3), absent from
`src/wbk/mapping/models.py` though imported from it by the pipeline. -/
structure MRule where
  item : ItemDef
  statements : List StmtDef

/-- `UpdateStrategy._build_snak_statement` (lines 130-141): a statement
for the item's snak matcher, unless one with the same property already
exists.  The source constructs `StatementDefinition(property=...,
value=...)` without a datatype; the embedding uses the empty string. -/
def buildSnakStatement (rule : MRule) : Option StmtDef :=
  rule.item.snak.elim none (fun sn =>
    if rule.statements.any (fun st => st.property = sn.property) then none
    else some ⟨sn.property, sn.value, "", [], [], none⟩)

/-- `UpdateStrategy._statements_with_snak` (lines 143-151). -/
def statementsWithSnak (rule : MRule) : List StmtDef :=
  (buildSnakStatement rule).elim rule.statements (fun extra => rule.statements ++ [extra])

/-- `context.get_property_info(statement.property)` as the strategies call
it; a missing property field resolves to nothing. -/
def stmtPropertyInfo (ctx : MCtx) (stmt : StmtDef) : Option String × Option String :=
  stmt.property.elim (none, none) (fun p => getPropertyInfo ctx p)

/-- Python truthiness of `current_claims.get(pid)`: present and
non-empty. -/
def truthyClaims (o : Option (List Claim)) : Bool :=
  o.elim false (fun cs => !cs.isEmpty)

/-- One statement of the `KeepStrategy` row loop (lines 332-349): an
unresolvable or falsy property id skips; a property that already has
claims counts as kept and leaves them untouched; otherwise the built claim
list — `new_claim_dict[property_id]`, supplied by the injected `builder`,
`none` when `build_claim` skips the claim — is stored and counted as
appended. -/
def keepStatementStep (ctx : MCtx) (builder : StmtDef → PRow → Option (List Claim))
    (row : PRow) (acc : Entity × Nat × Nat) (stmt : StmtDef) : Entity × Nat × Nat :=
  (stmtPropertyInfo ctx stmt).1.elim acc (fun pid =>
    if pid = "" then acc
    else if truthyClaims (alookup acc.1.claims pid) then (acc.1, acc.2.1 + 1, acc.2.2)
    else
      (builder stmt row).elim acc (fun newList =>
        ({ acc.1 with claims := aset acc.1.claims pid newList }, acc.2.1, acc.2.2 + 1)))

/-- The claims mutation of `KeepStrategy.run` for one row, over the
kept/appended counters. -/
def keepMutate (ctx : MCtx) (builder : StmtDef → PRow → Option (List Claim))
    (stmts : List StmtDef) : (Nat × Nat) → Entity → PRow → Entity × (Nat × Nat) :=
  fun ka item row =>
    ((stmts.foldl (keepStatementStep ctx builder row) (item, ka)).1,
     (stmts.foldl (keepStatementStep ctx builder row) (item, ka)).2)

/-- `KeepStrategy.run`: early return on an empty chunk or a rule without
statements, else the shared row loop with the keep mutation; returns the
flushed documents and the reported (kept, appended) counts. -/
def keepRun (ctx : MCtx) (builder : StmtDef → PRow → Option (List Claim))
    (rule : MRule) (rows : List PRow) : List Entity × Nat × Nat :=
  if rows.isEmpty ∨ rule.statements.isEmpty then ([], 0, 0)
  else
    (flushWorking
      (runRows (keepMutate ctx builder (statementsWithSnak rule)) ctx rows (0, 0)).working,
     (runRows (keepMutate ctx builder (statementsWithSnak rule)) ctx rows (0, 0)).acc)

/-- C5: under the Keep strategy, for an entity whose claims already hold
property `p1` (non-empty list) and lack `p2`, a row supplying values for
both leaves `p1` untouched, stores the newly built claim list under `p2`,
and reports kept = 1 and appended = 1. -/
theorem keep_preserves_p1_appends_p2
    (ctx : MCtx) (builder : StmtDef → PRow → Option (List Claim)) (rule : MRule)
    (row : PRow) (q : String) (base : Entity) (p1 p2 : String)
    (cs1 newList : List Claim) (s1 s2 : StmtDef)
    (hrule : rule.statements = [s1, s2]) (hsnak : rule.item.snak = none)
    (hq : rowQid row = some q) (hbase : getItem ctx q = some base)
    (hclaims : base.claims = [(p1, cs1)]) (hcs1 : cs1 ≠ [])
    (hp1 : (stmtPropertyInfo ctx s1).1 = some p1) (hp1ne : p1 ≠ "")
    (hp2 : (stmtPropertyInfo ctx s2).1 = some p2) (hp2ne : p2 ≠ "")
    (hne : p1 ≠ p2) (hbuild : builder s2 row = some newList) :
    keepRun ctx builder rule [row] =
      ([{ setLabelsDescriptions base row ctx.language with
            claims := [(p1, cs1), (p2, newList)] }], 1, 1) := by
  have hstmts : statementsWithSnak rule = [s1, s2] := by
    simp [statementsWithSnak, buildSnakStatement, hsnak, hrule]
  have hdoc_claims : (setLabelsDescriptions base row ctx.language).claims = [(p1, cs1)] := by
    rw [setLabelsDescriptions_claims, hclaims]
  have hmut : keepMutate ctx builder (statementsWithSnak rule) (0, 0)
      (setLabelsDescriptions base row ctx.language) row =
      ({ setLabelsDescriptions base row ctx.language with
          claims := [(p1, cs1), (p2, newList)] }, 1, 1) := by
    rw [hstmts]
    have hne1 : cs1.isEmpty = false := by
      cases cs1 with
      | nil => exact absurd rfl hcs1
      | cons a t => rfl
    have hstep1 : keepStatementStep ctx builder row
        (setLabelsDescriptions base row ctx.language, 0, 0) s1 =
        (setLabelsDescriptions base row ctx.language, 1, 0) := by
      simp [keepStatementStep, hp1, hp1ne, hclaims, truthyClaims, alookup, hne1]
    have hstep2 : keepStatementStep ctx builder row
        (setLabelsDescriptions base row ctx.language, 1, 0) s2 =
        ({ setLabelsDescriptions base row ctx.language with
            claims := [(p1, cs1), (p2, newList)] }, 1, 1) := by
      simp [keepStatementStep, hp2, hp2ne, hclaims, truthyClaims, alookup, hne,
        hbuild, aset]
    show ((keepStatementStep ctx builder row
        (keepStatementStep ctx builder row
          (setLabelsDescriptions base row ctx.language, 0, 0) s1) s2).1,
      (keepStatementStep ctx builder row
        (keepStatementStep ctx builder row
          (setLabelsDescriptions base row ctx.language, 0, 0) s1) s2).2) = _
    rw [hstep1, hstep2]
  have hstepGen : stepRow (keepMutate ctx builder (statementsWithSnak rule))
      ⟨[], (0, 0), ctx⟩ row =
      ⟨[(q, (keepMutate ctx builder (statementsWithSnak rule) (0, 0)
          (setLabelsDescriptions base row ctx.language) row).1)],
       (keepMutate ctx builder (statementsWithSnak rule) (0, 0)
          (setLabelsDescriptions base row ctx.language) row).2, ctx⟩ := by
    simp [stepRow, getOrInitItem, hq, hbase, aset]
  have hstep : stepRow (keepMutate ctx builder (statementsWithSnak rule))
      ⟨[], (0, 0), ctx⟩ row =
      ⟨[(q, { setLabelsDescriptions base row ctx.language with
                claims := [(p1, cs1), (p2, newList)] })], (1, 1), ctx⟩ := by
    rw [hstepGen, hmut]
  have hrows_ne : ¬(([row] : List PRow).isEmpty ∨ rule.statements.isEmpty) := by
    simp [hrule]
  unfold keepRun
  rw [if_neg hrows_ne]
  show (flushWorking (stepRow (keepMutate ctx builder (statementsWithSnak rule))
      ⟨[], (0, 0), ctx⟩ row).working,
    (stepRow (keepMutate ctx builder (statementsWithSnak rule))
      ⟨[], (0, 0), ctx⟩ row).acc) = _
  rw [hstep]
  rfl

/-! ## Concrete inputs for the witnesses -/

def witClaim1 : Claim :=
  { mainsnak := snakMk "quantity" (.str "5") "P11" "value",
    qualifiers := [], qualifiersOrder := [], references := [],
    rank := "normal", id := some "Q1$abc" }

def witClaim2 : Claim :=
  { mainsnak := snakMk "wikibase-item" (.str "Q42") "P22" "value",
    qualifiers := [], qualifiersOrder := [], references := [],
    rank := "normal", id := none }

def witBase : Entity :=
  { id := some "Q1", etype := "item",
    labels := [("en", ⟨"en", "School A"⟩)],
    descriptions := [], aliases := [],
    claims := [("P11", [witClaim1])] }

def witCtx : MCtx :=
  { language := "en",
    pidCache := [("Population", ⟨"P11", some "quantity"⟩)],
    dbProps := [("District", ⟨"P22", some "wikibase-item"⟩)],
    qidByLabel := [("Los Andes", "Q42")],
    qidByPair := [],
    itemCache := [("Q1", witBase)] }

def witRow : PRow :=
  { qid := some "Q1", item := none, newLabel := none,
    rowLabel := some "School A", newDescription := none, rowDescription := none,
    cells := [("pop", "7"), ("district", "Los Andes")] }

def witMutate : Unit → Entity → PRow → Entity × Unit :=
  fun u e _ => ({ e with etype := e.etype ++ "x" }, u)

def witStmt1 : StmtDef :=
  ⟨some "Population", some (.strSpec "pop"), "quantity", [], [], none⟩

def witStmt2 : StmtDef :=
  ⟨some "District", some (.dictSpec (some "district") none none none),
   "wikibase-item", [], [], none⟩

def witRule : MRule := ⟨⟨none⟩, [witStmt1, witStmt2]⟩

def witBuilder : StmtDef → PRow → Option (List Claim) :=
  fun s _ => if s.datatype = "wikibase-item" then some [witClaim2] else none

/-- Witness for C2 at a concrete context, row and mutation: processing the
same row twice accumulates both mutations in the single flushed document. -/
theorem strategy_same_qid_accumulates_witness :
    (rowQid witRow = some "Q1" ∧ getItem witCtx "Q1" = some witBase) ∧
    ((runRows witMutate witCtx [witRow, witRow] ()).working =
       [("Q1", (accumTwice witMutate witCtx.language witBase witRow witRow ()).1)] ∧
     flushWorking (runRows witMutate witCtx [witRow, witRow] ()).working =
       [(accumTwice witMutate witCtx.language witBase witRow witRow ()).1] ∧
     (runRows witMutate witCtx [witRow, witRow] ()).acc =
       (accumTwice witMutate witCtx.language witBase witRow witRow ()).2) :=
  ⟨⟨rfl, rfl⟩,
    strategy_same_qid_accumulates witMutate witCtx witRow witRow "Q1" witBase ()
      rfl rfl rfl⟩

/-- Witness for C9 at a concrete context and row. -/
theorem strategy_mutates_only_copy_witness :
    (rowQid witRow = some "Q1" ∧ getItem witCtx "Q1" = some witBase) ∧
    ((runRows witMutate witCtx [witRow] ()).ctx = witCtx ∧
     getItem (runRows witMutate witCtx [witRow] ()).ctx "Q1" = some witBase ∧
     flushWorking (runRows witMutate witCtx [witRow] ()).working =
       [(witMutate () (setLabelsDescriptions witBase witRow witCtx.language) witRow).1]) :=
  ⟨⟨rfl, rfl⟩,
    strategy_mutates_only_copy witMutate witCtx [witRow] () witRow "Q1" witBase rfl rfl⟩

/-- Witness for C5: the concrete entity `witBase` already holds claims for
`P11`; the Keep run leaves them, appends the built `P22` claim and reports
kept = 1, appended = 1. -/
theorem keep_preserves_p1_appends_p2_witness :
    (witRule.statements = [witStmt1, witStmt2] ∧ witRule.item.snak = none ∧
     rowQid witRow = some "Q1" ∧ getItem witCtx "Q1" = some witBase ∧
     witBase.claims = [("P11", [witClaim1])] ∧ ([witClaim1] : List Claim) ≠ [] ∧
     (stmtPropertyInfo witCtx witStmt1).1 = some "P11" ∧
     (stmtPropertyInfo witCtx witStmt2).1 = some "P22" ∧
     ("P11" : String) ≠ "P22" ∧ witBuilder witStmt2 witRow = some [witClaim2]) ∧
    keepRun witCtx witBuilder witRule [witRow] =
      ([{ setLabelsDescriptions witBase witRow witCtx.language with
            claims := [("P11", [witClaim1]), ("P22", [witClaim2])] }], 1, 1) :=
  ⟨⟨rfl, rfl, rfl, rfl, rfl, by simp, rfl, rfl, by decide, rfl⟩,
    keep_preserves_p1_appends_p2 witCtx witBuilder witRule witRow "Q1" witBase
      "P11" "P22" [witClaim1] [witClaim2] witStmt1 witStmt2 rfl rfl rfl rfl rfl
      (by simp) rfl (by decide) rfl (by decide) (by decide) rfl⟩

/-! ## C4: property resolution failure inside `build_claim` -/

def c4Stmt : StmtDef := ⟨some "Enrollment", some (.strSpec "pop"), "quantity", [], [], none⟩

def c4Ctx : MCtx := ⟨"en", [], [], [], [], []⟩

def c4Row : PRow := ⟨none, none, none, none, none, none, [("pop", "5")]⟩

/-- C4: the claim says a statement whose property cannot be resolved makes
`build_claim` return `None`, so that only that claim is skipped and no
exception reaches the caller.  The code instead raises: `build_claim`
resolves the property through `context.get_property_id` (claim_builder.py
lines 51-54; additionally the call passes property id and label to a
one-parameter method), which raises `ValueError` for an unresolvable
property (context.py lines 132-139), and the `try` block of `build_claim`
covers only the main value resolution — the exception escapes to the loop
over the row's statements.  Evaluated here at a statement whose property
`Enrollment` is in no cache and no property table. -/
theorem buildClaim_raises_on_unresolvable_property :
    buildClaim c4Stmt c4Row c4Ctx =
      .error (.valueError "Property not found: Enrollment") ∧
    buildClaim c4Stmt c4Row c4Ctx ≠ .ok none := by
  have h : buildClaim c4Stmt c4Row c4Ctx =
      .error (.valueError "Property not found: Enrollment") := rfl
  exact ⟨h, by rw [h]; simp⟩

/-! ## C6: column specs under the wikibase-item datatype -/

theorem map_no_valueError {α β : Type} (x : Except PyErr α) (f : α → β)
    (hx : ∀ m, x ≠ .error (.valueError m)) :
    ∀ m, x.map f ≠ .error (.valueError m) := by
  rcases x with e | v
  · intro m hcontra
    simp [Except.map] at hcontra
    exact hx m (by rw [hcontra])
  · intro m hcontra
    simp [Except.map] at hcontra

/-- C6: for the value spec `{column: c}` under datatype `wikibase-item`,
resolution looks the cell `row[c]` up through the context's label-to-qid
lookup and returns the qid when the lookup produces a truthy result and
the raw cell string otherwise — an `ok` value in both cases, never `None`
and never an exception. -/
theorem resolve_column_wikibase_item (ctx : MCtx) (row : PRow) (c cell : String)
    (hcell : alookup row.cells c = some cell) :
    resolve (some (.dictSpec (some c) none none none)) row "wikibase-item" ctx =
      .ok (.str ((truthyOpt (getQid ctx cell)).getD cell)) := by
  have helem : resolveElement row "wikibase-item" ctx (.dictSpec (some c) none none none) =
      .ok (.str cell) := by
    simp [resolveElement, rowGet, hcell, Except.map]
  rcases ht : truthyOpt (getQid ctx cell) with _ | q <;>
    simp [resolve, helem, ht]

/-- Witness for C6: the cell `Los Andes` resolves through the context to
`Q42`; applying the theorem at `witRow`/`witCtx`. -/
theorem resolve_column_wikibase_item_witness :
    alookup witRow.cells "district" = some "Los Andes" ∧
    resolve (some (.dictSpec (some "district") none none none)) witRow "wikibase-item"
        witCtx =
      .ok (.str ((truthyOpt (getQid witCtx "Los Andes")).getD "Los Andes")) :=
  ⟨rfl, resolve_column_wikibase_item witCtx witRow "district" "Los Andes" rfl⟩

/-! ## C7: the `ValueError` conditions of value resolution -/

/-- A well-shaped spec element per the claim: a string, or a dict carrying
at least one of the `column` / `value` / `label` keys. -/
inductive GoodElem : VSpec → Prop where
  | str (s : String) : GoodElem (.strSpec s)
  | dict (col v lab vdesc : Option String)
      (h : col.isSome ∨ v.isSome ∨ lab.isSome) :
      GoodElem (.dictSpec col v lab vdesc)

/-- A well-shaped spec: a well-shaped element or a list of them. -/
inductive GoodSpec : VSpec → Prop where
  | elem {sp : VSpec} (h : GoodElem sp) : GoodSpec sp
  | list {xs : List VSpec} (h : ∀ x ∈ xs, GoodElem x) : GoodSpec (.listSpec xs)

theorem rowGet_no_valueError (row : PRow) (c : String) :
    ∀ m, rowGet row c ≠ .error (.valueError m) := by
  intro m
  unfold rowGet
  rcases alookup row.cells c with _ | v <;> simp

theorem renderGo_no_valueError (cells : List (String × String)) :
    ∀ (l : List Char) (st : Option (List Char)) (m : String),
      renderGo cells st l ≠ .error (.valueError m) := by
  intro l
  induction l with
  | nil => intro st m; cases st <;> simp [renderGo]
  | cons c rest ih =>
      intro st m
      cases st with
      | none =>
          by_cases hc : c = '{'
          · simpa [renderGo, hc] using ih (some []) m
          · have := ih none m
            simp only [renderGo, if_neg hc]
            exact map_no_valueError _ _ (fun m2 => ih none m2) m
      | some buf =>
          by_cases hc : c = '}'
          · simp only [renderGo, if_pos hc]
            rcases halo : alookup cells ⟨buf⟩ with _ | v
            · simp
            · simp only [Option.elim]
              exact map_no_valueError _ _ (fun m2 => ih none m2) m
          · simpa [renderGo, hc] using ih (some (buf ++ [c])) m

theorem renderDescRow_no_valueError (row : PRow) (t : String) :
    ∀ m, renderDescRow row t ≠ .error (.valueError m) :=
  fun m => map_no_valueError _ _ (fun m2 => renderGo_no_valueError row.cells t.data none m2) m

theorem resolveElement_good {sp : VSpec} (hg : GoodElem sp)
    (row : PRow) (dt : String) (ctx : MCtx) :
    ∀ m, resolveElement row dt ctx sp ≠ .error (.valueError m) := by
  intro m
  cases hg with
  | str s =>
      exact map_no_valueError _ _ (rowGet_no_valueError row s) m
  | dict col v lab vdesc hkeys =>
      cases col with
      | some c =>
          cases vdesc with
          | none =>
              exact map_no_valueError _ _ (rowGet_no_valueError row c) m
          | some t =>
              simp only [resolveElement]
              rcases hr : rowGet row c with e | cell
              · rcases e with msg | msg
                · exact absurd hr (rowGet_no_valueError row c msg)
                · simp
              · rcases hd : renderDescRow row t with e | desc
                · rcases e with msg | msg
                  · exact absurd hd (renderDescRow_no_valueError row t msg)
                  · simp
                · rcases hq : truthyOpt (getQidPair ctx (cell, desc)) with _ | qv <;>
                    simp [hq]
      | none =>
          cases v with
          | some sv => simp [resolveElement]
          | none =>
              cases lab with
              | some lb =>
                  simp only [resolveElement]
                  by_cases hdt : dt = "wikibase-item"
                  · rcases hq : truthyOpt (getQid ctx lb) with _ | qv <;> simp [hdt, hq]
                  · simp [hdt]
              | none => simp at hkeys

theorem resolveList_good {xs : List VSpec} (hg : ∀ x ∈ xs, GoodElem x)
    (row : PRow) (dt : String) (ctx : MCtx) :
    ∀ m, resolveList row dt ctx xs ≠ .error (.valueError m) := by
  induction xs with
  | nil => intro m; simp [resolveList]
  | cons x rest ih =>
      intro m
      simp only [resolveList]
      rcases hx : resolveElement row dt ctx x with e | v
      · rcases e with msg | msg
        · exact absurd hx (resolveElement_good (hg x (by simp)) row dt ctx msg)
        · simp
      · rcases hrest : resolveList row dt ctx rest with e | vs
        · rcases e with msg | msg
          · exact absurd hrest (ih (fun y hy => hg y (by simp [hy])) msg)
          · simp
        · simp

/-- C7: value resolution raises `ValueError` exactly for a `None` spec
(required-value message) and for a dict spec carrying none of the
`column` / `value` / `label` keys (invalid-dict message); for every
well-shaped spec — a string, a dict with one of those keys, or a list of
such elements — neither of these two `ValueError`s is produced (a missing
row column raises `KeyError`, a different exception). -/
theorem resolve_valueerror_characterization (dt : String) :
    (∀ (row : PRow) (ctx : MCtx),
      resolve none row dt ctx =
        .error (.valueError ("No value specified for datatype " ++ dt))) ∧
    (∀ (row : PRow) (ctx : MCtx) (vdesc : Option String),
      resolve (some (.dictSpec none none none vdesc)) row dt ctx =
        .error (.valueError "Invalid value spec dict")) ∧
    (∀ (sp : VSpec) (row : PRow) (ctx : MCtx), GoodSpec sp →
      resolve (some sp) row dt ctx ≠
        .error (.valueError ("No value specified for datatype " ++ dt)) ∧
      resolve (some sp) row dt ctx ≠
        .error (.valueError "Invalid value spec dict")) := by
  refine ⟨fun row ctx => rfl, fun row ctx vdesc => rfl, ?_⟩
  intro sp row ctx hgood
  cases hgood with
  | elem h =>
      cases h with
      | str s =>
          constructor <;>
          · simp only [resolve]
            rcases hx : resolveElement row dt ctx (.strSpec s) with e | v
            · rcases e with msg | msg
              · exact absurd hx (resolveElement_good (GoodElem.str s) row dt ctx msg)
              · simp
            · rcases v with s2 | t2
              · by_cases hdt : dt = "wikibase-item"
                · rcases hq : truthyOpt (getQid ctx s2) with _ | qv <;> simp [hdt, hq]
                · simp [hdt]
              · simp
      | dict col v lab vdesc hkeys =>
          constructor <;>
          · simp only [resolve]
            rcases hx : resolveElement row dt ctx (.dictSpec col v lab vdesc) with e | w
            · rcases e with msg | msg
              · exact absurd hx
                  (resolveElement_good (GoodElem.dict col v lab vdesc hkeys) row dt ctx msg)
              · simp
            · rcases w with s2 | t2
              · by_cases hdt : dt = "wikibase-item"
                · rcases hq : truthyOpt (getQid ctx s2) with _ | qv <;> simp [hdt, hq]
                · simp [hdt]
              · simp
  | list h =>
      constructor <;>
      · simp only [resolve]
        refine map_no_valueError _ _ (fun m2 => resolveList_good h row dt ctx m2) _

/-- Witness for C7 at a concrete well-shaped spec: the bare column spec
`pop` is well-shaped and resolving it raises neither of the two
`ValueError`s. -/
theorem resolve_valueerror_characterization_witness :
    GoodSpec (.strSpec "pop") ∧
    (resolve (some (.strSpec "pop")) witRow "quantity" witCtx ≠
      .error (.valueError ("No value specified for datatype " ++ "quantity")) ∧
     resolve (some (.strSpec "pop")) witRow "quantity" witCtx ≠
      .error (.valueError "Invalid value spec dict")) :=
  ⟨GoodSpec.elem (GoodElem.str "pop"),
    (resolve_valueerror_characterization "quantity").2.2 (.strSpec "pop") witRow witCtx
      (GoodSpec.elem (GoodElem.str "pop"))⟩

/-! ## Bulk label search

`ItemBulkSearcher` (`src/wbk/processor/bulk_item_search.py`) and
`RaiseWikibaseBackend` (`src/wbk/backend/raisewikibase.py`).  The label
terms table behind the SQL queries is embedded as a list of rows; the
apostrophe escaping round-trips and is dropped. -/

/-- ASCII lower-casing of one character (`str.lower` on the ASCII
fragment the label filters compare against). -/
def lowerChar (c : Char) : Char :=
  if 'A' ≤ c ∧ c ≤ 'Z' then Char.ofNat (c.toNat + 32) else c

/-- `str.lower()` on the ASCII fragment. -/
def pyLower (s : String) : String :=
  ⟨s.data.map lowerChar⟩

/-- Label filter of `_bulk_find_items_db` (bulk_item_search.py lines
135-142): `nan`, `none` and empty labels are skipped. -/
def labelOk (l : String) : Bool :=
  !(pyLower l = "nan" ∨ pyLower l = "none" ∨ l = "")

/-- `ItemBulkSearcher._bulk_find_items_db` (lines 127-182): query all
label-term rows matching the filtered labels and fold them into a dict
mapping the label to `Q{item_id}` — a later row for the same label
silently overwrites an earlier one; there is no ambiguity detection and no
error. -/
def bulkFindItemsDb (table : List (String × Nat)) (labels : List String) :
    List (String × String) :=
  ((table.filter (fun r => r.1 ∈ labels.filter labelOk)).foldl
    (fun m r => aset m r.1 ("Q" ++ toString r.2)) [])

/-- `ItemBulkSearcher.find_items_by_labels_optimized` (lines 87-125) with
its label cache: cached answers are reused, the uncached labels go to the
database in one chunk, and the merged dict is returned.  No parameter
tolerates or detects ambiguity. -/
def findItemsByLabelsOptimized (cache : List (String × Option String))
    (table : List (String × Nat)) (labels : List String) :
    List (String × Option String) :=
  if labels.isEmpty then []
  else
    ((bulkFindItemsDb table (labels.filter (fun l => (alookup cache l).isNone))).foldl
      (fun m r => aset m r.1 (some r.2))
      ((labels.filter (fun l => (alookup cache l).isSome)).foldl
        (fun m l => (alookup cache l).elim m (fun v => aset m l v)) []))

/-- Parsed entity JSON parts consumed by `_build_item_entity`. -/
structure EntityParts where
  labels : List (String × Term)
  descriptions : List (String × Term)
  claims : List (String × List Claim)

/-- One row of the label-terms/page/text join behind the data-bearing
searches: the label text, the optional qid, and the optional parsed JSON
document. -/
structure DbItemRow where
  labelText : String
  qid : Option String
  parts : Option EntityParts

/-- `_create_empty_item` (bulk_item_search.py lines 966-991, and
raisewikibase.py lines 110-125): an entity shell whose labels hold the
requested label and which carries an `id` key only for a truthy qid. -/
def createEmptyItem (qid : Option String) (itemLabel : String) (language : String) : Entity :=
  { id := truthyOpt qid, etype := "item", labels := labelMk language itemLabel,
    descriptions := [], aliases := [], claims := [] }

/-- `RaiseWikibaseBackend._normalize_label` (lines 43-53). -/
def normalizeLabel (v : String) : Option String :=
  if (⟨pyStripL v.data⟩ : String) = "" then none
  else if pyLower ⟨pyStripL v.data⟩ = "nan" ∨
      pyLower ⟨pyStripL v.data⟩ = "none" then none
  else some ⟨pyStripL v.data⟩

/-- Order-preserving deduplication (`list(dict.fromkeys(...))`). -/
def dedup (l : List String) : List String :=
  l.foldl (fun acc x => if x ∈ acc then acc else acc ++ [x]) []

/-- `_fetch_items_with_data` (raisewikibase.py lines 449-492): the rows of
the join whose label is among the requested ones. -/
def fetchItemsWithData (db : List DbItemRow) (labels : List String) : List DbItemRow :=
  db.filter (fun r => r.labelText ∈ labels)

/-- `_build_item_entity` (raisewikibase.py lines 127-156): the parsed
document with the qid set, or an empty shell under the fallback label. -/
def buildItemEntity (qid : String) (parts : Option EntityParts) (language : String)
    (fallbackLabel : String) : Entity :=
  parts.elim (createEmptyItem (some qid) fallbackLabel language)
    (fun p =>
      { id := some qid, etype := "item", labels := p.labels,
        descriptions := p.descriptions, aliases := [], claims := p.claims })

/-- Grouping of `find_items_by_labels` (raisewikibase.py lines 755-761):
rows with a truthy qid, grouped by label in arrival order. -/
def groupRows (rows : List DbItemRow) : List (String × List (String × Option EntityParts)) :=
  rows.foldl
    (fun m r =>
      (truthyOpt r.qid).elim m (fun q =>
        (alookup m r.labelText).elim (m ++ [(r.labelText, [(q, r.parts)])])
          (fun lst => aset m r.labelText (lst ++ [(q, r.parts)]))))
    []

/-- The ambiguity error of the backend label search. -/
inductive SearchErr where
  | ambiguous (lbl : String) (qids : List String)
  deriving Repr

/-- Result-building loop of `find_items_by_labels` (lines 763-781): one
entry per normalized label — `None` for no match, the built entity for one
match, and a raised `ValueError` naming the label and the matching qids
for more than one match. -/
def buildResults (language : String)
    (itemsByLabel : List (String × List (String × Option EntityParts))) :
    List String → Except SearchErr (List (String × Option Entity))
  | [] => .ok []
  | l :: rest =>
      match (alookup itemsByLabel l).getD [] with
      | [] => (buildResults language itemsByLabel rest).map (fun res => (l, none) :: res)
      | [(q, parts)] =>
          (buildResults language itemsByLabel rest).map
            (fun res => (l, some (buildItemEntity q parts language l)) :: res)
      | items => .error (.ambiguous l (items.map (fun p => p.1)))

/-- `RaiseWikibaseBackend.find_items_by_labels` (lines 724-781). -/
def rwFindItemsByLabels (db : List DbItemRow) (labels : List String) (language : String) :
    Except SearchErr (List (String × Option Entity)) :=
  if labels.isEmpty then .ok []
  else if (labels.filterMap normalizeLabel).isEmpty then .ok []
  else
    buildResults language
      (groupRows (fetchItemsWithData db (dedup (labels.filterMap normalizeLabel))))
      (dedup (labels.filterMap normalizeLabel))

/-- `ItemBulkSearcher._bulk_find_items_with_data_db` (lines 408-518) on
the embedded join rows: a row without a qid or without parsable JSON
yields an empty shell, otherwise the parsed document with the qid set. -/
def bulkFindItemsWithDataDb (db : List DbItemRow) (labels : List String)
    (language : String) : List (String × Entity) :=
  ((db.filter (fun r => r.labelText ∈ labels.filter labelOk)).foldl
    (fun m r =>
      (truthyOpt r.qid).elim
        (aset m r.labelText (createEmptyItem none r.labelText language))
        (fun q =>
          r.parts.elim (aset m r.labelText (createEmptyItem (some q) r.labelText language))
            (fun p => aset m r.labelText
              { id := some q, etype := "item", labels := p.labels,
                descriptions := p.descriptions, aliases := [], claims := p.claims })))
    [])

/-- The fill-in step of `find_items_by_labels_with_data` (lines 353-358):
a requested label missing from the database results is mapped to a truthy
empty-shell document with no id. -/
def fillMissing (language : String) (m : List (String × Entity)) (l : String) :
    List (String × Entity) :=
  if (alookup m l).isSome then m else aset m l (createEmptyItem none l language)

/-- `ItemBulkSearcher.find_items_by_labels_with_data` (lines 320-360). -/
def findItemsByLabelsWithData (db : List DbItemRow) (labels : List String)
    (language : String) : List (String × Entity) :=
  if labels.isEmpty then []
  else labels.foldl (fillMissing language) (bulkFindItemsWithDataDb db labels language)

/-- C3 counterexample: two entities (ids 1 and 2) share the label
`Escuela Basica`.  The claim says a label-only search without explicit
ambiguity toleration must fail with an ambiguity error identifying the
label rather than return one of the matching entities; the item search the
mapping processor uses (`find_items_by_labels_optimized` over
`_bulk_find_items_db`) has no failure channel at all and maps the label to
`Q2` — the id of the last matching database row. -/
theorem label_search_ambiguity_counterexample :
    findItemsByLabelsOptimized [] [("Escuela Basica", 1), ("Escuela Basica", 2)]
        ["Escuela Basica"] = [("Escuela Basica", some "Q2")] := by decide

/-- Last table row whose label matches. -/
def lastMatch (table : List (String × Nat)) (l : String) : Option (String × Nat) :=
  (table.filter (fun r => r.1 = l)).getLast?

theorem alookup_foldl_aset {α : Type} (f : String × Nat → α) :
    ∀ (rows : List (String × Nat)) (init : List (String × α)) (l : String),
      alookup (rows.foldl (fun m r => aset m r.1 (f r)) init) l =
        ((rows.filter (fun r => r.1 = l)).getLast?).elim (alookup init l)
          (fun r => some (f r)) := by
  intro rows
  induction rows with
  | nil => intro init l; simp
  | cons r rest ih =>
      intro init l
      rw [List.foldl_cons, ih]
      by_cases hm : r.1 = l
      · rw [List.filter_cons_of_pos (by simp [hm])]
        cases hf : rest.filter (fun r2 => r2.1 = l) with
        | nil =>
            subst hm
            simp [alookup_aset_self]
        | cons a t =>
            rw [List.getLast?_cons_cons]
            rcases hg : (a :: t).getLast? with _ | r2
            · exact absurd (List.getLast?_eq_none_iff.mp hg) (by simp)
            · rfl
      · rw [List.filter_cons_of_neg (by simp [hm])]
        rw [alookup_aset_ne init r.1 l (f r) hm]

/-- C3 amended: when more than one entity shares a label, the backend's
`find_items_by_labels` raises an ambiguity error identifying that label
and the matching qids (there is no parameter tolerating ambiguity), while
the optimized label search the mapping processor actually uses performs no
ambiguity check and silently maps the label to the id of the last matching
database row. -/
theorem label_search_ambiguity_amended :
    (∀ (db : List DbItemRow) (l language : String)
        (items : List (String × Option EntityParts)),
      normalizeLabel l = some l →
      alookup (groupRows (fetchItemsWithData db [l])) l = some items →
      2 ≤ items.length →
      rwFindItemsByLabels db [l] language =
        .error (.ambiguous l (items.map (fun p => p.1)))) ∧
    (∀ (table : List (String × Nat)) (labels : List String) (l : String)
        (r : String × Nat),
      l ∈ labels.filter labelOk → lastMatch table l = some r →
      alookup (bulkFindItemsDb table labels) l = some ("Q" ++ toString r.2)) := by
  constructor
  · intro db l language items hnorm hgroup hlen
    have hfm : [l].filterMap normalizeLabel = [l] := by
      simp [List.filterMap, hnorm]
    have hdd : dedup [l] = [l] := by simp [dedup]
    unfold rwFindItemsByLabels
    rw [if_neg (by simp), hfm, hdd, if_neg (by simp)]
    rcases items with _ | ⟨a, items2⟩
    · simp at hlen
    · rcases items2 with _ | ⟨b, items3⟩
      · simp at hlen
      · simp [buildResults, hgroup]
  · intro table labels l r hl hlast
    unfold bulkFindItemsDb
    rw [alookup_foldl_aset (fun r2 => "Q" ++ toString r2.2)]
    have hff : (table.filter (fun r2 => r2.1 ∈ labels.filter labelOk)).filter
        (fun r2 => r2.1 = l) = table.filter (fun r2 => r2.1 = l) := by
      rw [List.filter_filter]
      apply List.filter_congr
      intro x hx
      by_cases hxl : x.1 = l
      · simp [hxl, hl]
      · simp [hxl]
    rw [hff]
    rw [show (table.filter (fun r2 => r2.1 = l)).getLast? = some r from hlast]
    rfl

/-- Witness for the amended C3 theorem: the backend search raises on the
doubly-labelled `Escuela Basica`, and the optimized search maps the same
label to the last row's id. -/
theorem label_search_ambiguity_amended_witness :
    (normalizeLabel "Escuela Basica" = some "Escuela Basica" ∧
     alookup (groupRows (fetchItemsWithData
         [⟨"Escuela Basica", some "Q1", none⟩, ⟨"Escuela Basica", some "Q2", none⟩]
         ["Escuela Basica"])) "Escuela Basica" =
       some [("Q1", none), ("Q2", none)] ∧
     "Escuela Basica" ∈ (["Escuela Basica"] : List String).filter labelOk ∧
     lastMatch [("Escuela Basica", 1), ("Escuela Basica", 2)] "Escuela Basica" =
       some ("Escuela Basica", 2)) ∧
    rwFindItemsByLabels
        [⟨"Escuela Basica", some "Q1", none⟩, ⟨"Escuela Basica", some "Q2", none⟩]
        ["Escuela Basica"] "en" =
      .error (.ambiguous "Escuela Basica" ["Q1", "Q2"]) ∧
    alookup (bulkFindItemsDb [("Escuela Basica", 1), ("Escuela Basica", 2)]
        ["Escuela Basica"]) "Escuela Basica" = some "Q2" :=
  ⟨⟨by decide, rfl, by decide, by decide⟩,
    label_search_ambiguity_amended.1
      [⟨"Escuela Basica", some "Q1", none⟩, ⟨"Escuela Basica", some "Q2", none⟩]
      "Escuela Basica" "en" [("Q1", none), ("Q2", none)] (by decide) rfl (by decide),
    label_search_ambiguity_amended.2 [("Escuela Basica", 1), ("Escuela Basica", 2)]
      ["Escuela Basica"] "Escuela Basica" ("Escuela Basica", 2) (by decide) (by decide)⟩

theorem alookup_fillMissing_pres {language : String} {m : List (String × Entity)}
    {l : String} {e : Entity} (l2 : String) (h : alookup m l = some e) :
    alookup (fillMissing language m l2) l = some e := by
  unfold fillMissing
  by_cases hs : (alookup m l2).isSome
  · rw [if_pos hs]; exact h
  · rw [if_neg hs]
    by_cases hll : l2 = l
    · subst hll; rw [h] at hs; simp at hs
    · rw [alookup_aset_ne m l2 l _ hll]; exact h

theorem foldl_fillMissing_pres {language : String} {l : String} {e : Entity} :
    ∀ (labels : List String) (m : List (String × Entity)), alookup m l = some e →
      alookup (labels.foldl (fillMissing language) m) l = some e := by
  intro labels
  induction labels with
  | nil => intro m h; exact h
  | cons l2 rest ih =>
      intro m h
      rw [List.foldl_cons]
      exact ih _ (alookup_fillMissing_pres l2 h)

theorem foldl_fillMissing_none {language : String} {l : String} :
    ∀ (labels : List String) (m : List (String × Entity)), alookup m l = none →
      l ∈ labels →
      alookup (labels.foldl (fillMissing language) m) l =
        some (createEmptyItem none l language) := by
  intro labels
  induction labels with
  | nil => intro m _ hmem; simp at hmem
  | cons l2 rest ih =>
      intro m hnone hmem
      rw [List.foldl_cons]
      by_cases hll : l2 = l
      · subst hll
        have hstep : fillMissing language m l2 =
            aset m l2 (createEmptyItem none l2 language) := by
          unfold fillMissing
          rw [if_neg (by rw [hnone]; simp)]
        rw [hstep]
        exact foldl_fillMissing_pres rest _ (alookup_aset_self m l2 _)
      · have hmem2 : l ∈ rest := by
          rcases List.mem_cons.mp hmem with h | h
          · exact absurd h.symm hll
          · exact h
        have hstep : alookup (fillMissing language m l2) l = none := by
          unfold fillMissing
          by_cases hs : (alookup m l2).isSome
          · rw [if_pos hs]; exact hnone
          · rw [if_neg hs, alookup_aset_ne m l2 l _ hll]; exact hnone
        exact ih _ hstep hmem2

/-- C10: `find_items_by_labels_with_data` returns an entry for every
requested label; a label the database misses maps to the empty-shell
document of `_create_empty_item` (not omitted, not `None`), and that shell
carries the requested label under the requested language yet no `id` key —
so presence/truthiness tests treat unfound labels as found. -/
theorem with_data_entry_for_every_label :
    (∀ (db : List DbItemRow) (labels : List String) (language l : String),
      l ∈ labels →
      (alookup (findItemsByLabelsWithData db labels language) l).isSome = true) ∧
    (∀ (db : List DbItemRow) (labels : List String) (language l : String),
      l ∈ labels →
      alookup (bulkFindItemsWithDataDb db labels language) l = none →
      alookup (findItemsByLabelsWithData db labels language) l =
        some (createEmptyItem none l language)) ∧
    (∀ (l language : String),
      (createEmptyItem none l language).id = none ∧
      (createEmptyItem none l language).labels = [(language, ⟨language, l⟩)]) := by
  refine ⟨?_, ?_, ?_⟩
  · intro db labels language l hmem
    have hne : labels.isEmpty = false := by
      cases labels with
      | nil => simp at hmem
      | cons a t => rfl
    unfold findItemsByLabelsWithData
    rw [if_neg (by rw [hne]; simp)]
    rcases h0 : alookup (bulkFindItemsWithDataDb db labels language) l with _ | e
    · rw [foldl_fillMissing_none labels _ h0 hmem]; rfl
    · rw [foldl_fillMissing_pres labels _ h0]; rfl
  · intro db labels language l hmem h0
    have hne : labels.isEmpty = false := by
      cases labels with
      | nil => simp at hmem
      | cons a t => rfl
    unfold findItemsByLabelsWithData
    rw [if_neg (by rw [hne]; simp)]
    exact foldl_fillMissing_none labels _ h0 hmem
  · intro l language
    exact ⟨rfl, rfl⟩

/-- Witness for C10 at a concrete empty database and the single label
`Escuela`. -/
theorem with_data_entry_for_every_label_witness :
    ("Escuela" ∈ (["Escuela"] : List String) ∧
     alookup (bulkFindItemsWithDataDb [] ["Escuela"] "en") "Escuela" = none) ∧
    (alookup (findItemsByLabelsWithData [] ["Escuela"] "en") "Escuela").isSome = true ∧
    alookup (findItemsByLabelsWithData [] ["Escuela"] "en") "Escuela" =
      some (createEmptyItem none "Escuela" "en") ∧
    (createEmptyItem none "Escuela" "en").id = none :=
  ⟨⟨by decide, rfl⟩,
    with_data_entry_for_every_label.1 [] ["Escuela"] "en" "Escuela" (by decide),
    with_data_entry_for_every_label.2.1 [] ["Escuela"] "en" "Escuela" (by decide) rfl,
    (with_data_entry_for_every_label.2.2 "Escuela" "en").1⟩

end WBK
